import Mathlib

/-!
# PeerLink (protoc2qt template `T_peerlink.cpp`)

A shallow embedding of the `PeerLink` class: the peer table `m_peers`
(a `QMap<QString, TcpSocket*>`), the `m_allowMulti` flag, the server pointer,
and every member function of the class as a function from a state to a new
state together with the ordered list of calls and signals it issues.
-/

namespace GtQt

/-! ## Qt value types -/

/-- Pointer to a `TcpSocket`; the value `0` is the null pointer. -/
abbrev TcpSocketPtr := Nat

/-- Unsigned 16-bit integer, the type of a port. -/
abbrev quint16 := Fin 65536

/-- Host address, represented by the text `QHostAddress::toString()` returns. -/
structure QHostAddress where
  text : String
deriving DecidableEq, Repr

/-- Text of a host address: `QHostAddress::toString()`. -/
def QHostAddress.toString (a : QHostAddress) : String := a.text

/-- Decimal text of a port: `QString::number(port)`. -/
def QString.number (n : quint16) : String := Nat.repr n.val

/-- Key of the peer table: `addr.toString()+":"+QString::number(port)`. -/
def peerKey (addr : QHostAddress) (port : quint16) : String :=
  addr.toString ++ ":" ++ QString.number port

/-! ## QMap -/

/-- Order of two keys, character by character (the order `QMap` keeps its keys in). -/
def keyLt (a b : String) : Prop := a.toList < b.toList

instance keyLt.decidable (a b : String) : Decidable (keyLt a b) := by
  unfold keyLt; infer_instance

/-- Insertion into an ascending entry list; an entry with the same key is replaced. -/
def insertEntry (k : String) (v : TcpSocketPtr) :
    List (String × TcpSocketPtr) → List (String × TcpSocketPtr)
  | [] => [(k, v)]
  | (k2, v2) :: m =>
    if keyLt k k2 then (k, v) :: (k2, v2) :: m
    else if k = k2 then (k, v) :: m
    else (k2, v2) :: insertEntry k v m

/-- Removal of the entry found under a key. -/
def eraseEntry (k : String) :
    List (String × TcpSocketPtr) → List (String × TcpSocketPtr)
  | [] => []
  | (k2, v2) :: m => if k = k2 then m else (k2, v2) :: eraseEntry k m

/-- Value stored under a key, if any. -/
def findEntry (k : String) : List (String × TcpSocketPtr) → Option TcpSocketPtr
  | [] => none
  | (k2, v2) :: m => if k = k2 then some v2 else findEntry k m

/-- Keys are strictly ascending. -/
def Ascending (m : List (String × TcpSocketPtr)) : Prop :=
  (m.map Prod.fst).Pairwise keyLt

instance Ascending.decidable (m : List (String × TcpSocketPtr)) : Decidable (Ascending m) := by
  unfold Ascending; infer_instance

theorem keyLt_irrefl (a : String) : ¬ keyLt a a := by
  unfold keyLt
  rw [← String.lt_iff_toList_lt]
  exact lt_irrefl a

theorem keyLt_trans {a b c : String} (h1 : keyLt a b) (h2 : keyLt b c) : keyLt a c := by
  unfold keyLt at *
  rw [← String.lt_iff_toList_lt] at *
  exact lt_trans h1 h2

theorem keyLt_of_not {a b : String} (h1 : ¬ keyLt a b) (h2 : a ≠ b) : keyLt b a := by
  unfold keyLt at *
  rw [← String.lt_iff_toList_lt] at *
  exact lt_of_le_of_ne (not_lt.mp h1) (Ne.symm h2)

theorem mem_keys_insertEntry (k : String) (v : TcpSocketPtr) (m : List (String × TcpSocketPtr))
    (x : String) :
    x ∈ (insertEntry k v m).map Prod.fst ↔ x = k ∨ x ∈ m.map Prod.fst := by
  induction m with
  | nil => simp [insertEntry]
  | cons e m ih =>
    obtain ⟨k2, v2⟩ := e
    unfold insertEntry
    by_cases h1 : keyLt k k2
    · simp [h1]
    · by_cases h2 : k = k2
      · subst h2
        simp [h1]
      · simp only [h1, h2, if_false, List.map_cons, List.mem_cons, ih]
        tauto

theorem ascending_insertEntry (k : String) (v : TcpSocketPtr)
    (m : List (String × TcpSocketPtr)) (h : Ascending m) :
    Ascending (insertEntry k v m) := by
  induction m with
  | nil => simp [insertEntry, Ascending]
  | cons e m ih =>
    obtain ⟨k2, v2⟩ := e
    unfold Ascending at h
    simp only [List.map_cons, List.pairwise_cons] at h
    obtain ⟨hhd, htl⟩ := h
    unfold insertEntry
    by_cases h1 : keyLt k k2
    · simp only [h1, if_true]
      unfold Ascending
      simp only [List.map_cons, List.pairwise_cons, List.mem_cons]
      refine ⟨?_, hhd, htl⟩
      intro a ha
      rcases ha with ha | ha
      · subst ha; exact h1
      · exact keyLt_trans h1 (hhd a ha)
    · by_cases h2 : k = k2
      · subst h2
        simp only [h1, if_false, if_true]
        unfold Ascending
        simp only [List.map_cons, List.pairwise_cons]
        exact ⟨hhd, htl⟩
      · simp only [h1, h2, if_false]
        unfold Ascending
        simp only [List.map_cons, List.pairwise_cons]
        refine ⟨?_, ih htl⟩
        intro a ha
        rcases (mem_keys_insertEntry k v m a).mp ha with ha | ha
        · subst ha; exact keyLt_of_not h1 h2
        · exact hhd a ha

theorem keys_eraseEntry_sublist (k : String) (m : List (String × TcpSocketPtr)) :
    ((eraseEntry k m).map Prod.fst).Sublist (m.map Prod.fst) := by
  induction m with
  | nil => simp [eraseEntry]
  | cons e m ih =>
    obtain ⟨k2, v2⟩ := e
    unfold eraseEntry
    by_cases h : k = k2
    · simp [h]
    · simp only [h, if_false, List.map_cons]
      exact ih.cons₂ k2

theorem ascending_eraseEntry (k : String) (m : List (String × TcpSocketPtr))
    (h : Ascending m) : Ascending (eraseEntry k m) :=
  List.Pairwise.sublist (keys_eraseEntry_sublist k m) h

/-- A `QMap<QString, TcpSocket*>`: its entries in ascending key order, one per key. -/
structure QMap where
  entries : List (String × TcpSocketPtr)
  ascending : Ascending entries

theorem QMap.ext_entries {a b : QMap} (h : a.entries = b.entries) : a = b := by
  cases a; cases b; cases h; rfl

instance QMap.decEq : DecidableEq QMap := fun a b =>
  decidable_of_iff (a.entries = b.entries)
    ⟨QMap.ext_entries, fun h => by rw [h]⟩

/-- The map with no entry: a default-constructed or cleared map. -/
def QMap.clear : QMap := ⟨[], List.Pairwise.nil⟩

/-- Lookup `m.find(key)`: the stored pointer, or `none` for `m.end()`. -/
def QMap.find (m : QMap) (k : String) : Option TcpSocketPtr := findEntry k m.entries

/-- Removal `m.erase(m.find(key))` of the entry under a key. -/
def QMap.erase (m : QMap) (k : String) : QMap :=
  ⟨eraseEntry k m.entries, ascending_eraseEntry k m.entries m.ascending⟩

/-- Assignment `m[key] = value`. -/
def QMap.insert (m : QMap) (k : String) (v : TcpSocketPtr) : QMap :=
  ⟨insertEntry k v m.entries, ascending_insertEntry k v m.entries m.ascending⟩

/-- Emptiness test `m.empty()`. -/
def QMap.empty (m : QMap) : Bool := m.entries.isEmpty

/-- Number of entries `m.size()`. -/
def QMap.size (m : QMap) : Nat := m.entries.length

/-- Stored values in the order `foreach` visits them (ascending key). -/
def QMap.values (m : QMap) : List TcpSocketPtr := m.entries.map Prod.snd

/-- Keys of the map in ascending order. -/
def QMap.keys (m : QMap) : List String := m.entries.map Prod.fst

/-! ## Sockets, signals and the calls a member function issues -/

/-- A `TcpSocket*` together with what its `peerAddress()` and `peerPort()` return
at the time a slot reads them. -/
structure TcpSocket where
  ptr : TcpSocketPtr
  peerAddress : QHostAddress
  peerPort : quint16
deriving DecidableEq, Repr

/-- Value of `QAbstractSocket::SocketError`. -/
abbrev SocketError := Int

/-- A `DataPackage<KEY>`: the message type it carries and its content. -/
structure DataPackage where
  key : String
  content : List Nat
deriving DecidableEq, Repr

/-- Signals of a `TcpSocket` that `PeerLink` wires up. -/
inductive SocketSignal where
  | receive (key : String)
  | connected
  | disconnected
  | error
deriving DecidableEq, Repr

/-- Receivers a socket signal is wired to. -/
inductive Receiver where
  | peerLinkReceive (key : String)
  | peerLinkConnected
  | peerLinkDisconnected
  | peerLinkHandle
  | socketDeleteLater
deriving DecidableEq, Repr

/-- One call or emitted signal, in program order. -/
inductive Effect where
  /-- Allocation `new TcpSocket(this)` returning the pointer. -/
  | newSocket (p : TcpSocketPtr)
  /-- Wiring `connect(socket, SIGNAL(..), receiver, SLOT(..))`. -/
  | wire (p : TcpSocketPtr) (sig : SocketSignal) (r : Receiver)
  /-- Unwiring `socket->disconnect()` of every signal connection of the socket. -/
  | unwireAll (p : TcpSocketPtr)
  /-- Request `socket->disconnectFromHost()`. -/
  | disconnectFromHost (p : TcpSocketPtr)
  /-- Request `socket->deleteLater()`. -/
  | deleteLater (p : TcpSocketPtr)
  /-- Timer `QTimer::singleShot(msec, socket, SLOT(deleteLater()))`. -/
  | singleShotDeleteLater (msec : Nat) (p : TcpSocketPtr)
  /-- Transport connect `socket->connectToHost(dest, port)`. -/
  | socketConnectToHost (p : TcpSocketPtr) (dest : QHostAddress) (port : quint16)
  /-- Write `socket->write(data)`. -/
  | write (p : TcpSocketPtr) (data : DataPackage)
  /-- Server stop `m_server->close()`. -/
  | serverClose
  /-- Server start `m_server->listen(addr, port)`. -/
  | serverListen (addr : QHostAddress) (port : quint16)
  /-- Signal `emit connected(addr, port)`. -/
  | emitConnected (addr : QHostAddress) (port : quint16)
  /-- Signal `emit disconnected(addr, port)`. -/
  | emitDisconnected (addr : QHostAddress) (port : quint16)
  /-- Signal `emit error(e)`. -/
  | emitError (e : SocketError)
deriving DecidableEq, Repr

/-! ## The PeerLink object -/

/-- Members of a `PeerLink`. -/
structure PeerLink where
  m_allowMulti : Bool
  /-- Pointer to the `TcpServer`; `0` is `NULL`. -/
  m_server : Nat
  m_peers : QMap
deriving DecidableEq

/-- Constructor: `m_allowMulti(false)`, an empty peer table, and
`m_server = new TcpServer(this)`, the pointer the allocation returned. -/
def PeerLink.ctor (server : Nat) : PeerLink :=
  { m_allowMulti := false, m_server := server, m_peers := QMap.clear }

/-- Member `close()`: release every socket of the table, clear it, stop the server. -/
def PeerLink.close (s : PeerLink) : PeerLink × List Effect :=
  ({ s with m_peers := QMap.clear },
    (s.m_peers.values.filter (fun socket => socket ≠ 0)).map Effect.deleteLater ++
      (if s.m_server ≠ 0 then [Effect.serverClose] else []))

/-- Member `close(peeraddr, peerport)`: close the link to the peer described. -/
def PeerLink.closeOne (s : PeerLink) (peeraddr : QHostAddress) (peerport : quint16) :
    PeerLink × List Effect :=
  let key := peerKey peeraddr peerport
  match s.m_peers.find key with
  | some socket =>
    ({ s with m_peers := s.m_peers.erase key },
      [Effect.disconnectFromHost socket, Effect.deleteLater socket])
  | none => (s, [])

/-- Member `listen(addr, port)`; `isListening` is what `m_server->isListening()` returns. -/
def PeerLink.listen (s : PeerLink) (isListening : Bool) (addr : QHostAddress) (port : quint16) :
    PeerLink × List Effect :=
  (s, (if isListening then [Effect.serverClose] else []) ++ [Effect.serverListen addr port])

/-- Signal wiring of a socket created by `connectToHost`; `KEYS` are the message
types the template block is repeated for. -/
def wireOutbound (KEYS : List String) (socket : TcpSocketPtr) : List Effect :=
  KEYS.map (fun k => Effect.wire socket (SocketSignal.receive k) (Receiver.peerLinkReceive k)) ++
    [Effect.wire socket SocketSignal.connected Receiver.peerLinkConnected,
     Effect.wire socket SocketSignal.disconnected Receiver.peerLinkDisconnected,
     Effect.wire socket SocketSignal.error Receiver.peerLinkHandle]

/-- Signal wiring of a socket accepted by `newConnection`. -/
def wireInbound (KEYS : List String) (sock : TcpSocketPtr) : List Effect :=
  KEYS.map (fun k => Effect.wire sock (SocketSignal.receive k) (Receiver.peerLinkReceive k)) ++
    [Effect.wire sock SocketSignal.disconnected Receiver.peerLinkDisconnected,
     Effect.wire sock SocketSignal.error Receiver.peerLinkHandle]

/-- First block of `connectToHost`: an entry already under the key is closed
and erased. Returns the table and the calls issued. -/
def evictForDial (peers : QMap) (key : String) : QMap × List Effect :=
  match peers.find key with
  | some socket =>
    (peers.erase key,
      [Effect.unwireAll socket,
       Effect.disconnectFromHost socket,
       Effect.wire socket SocketSignal.disconnected Receiver.socketDeleteLater,
       Effect.singleShotDeleteLater 30000 socket])
  | none => (peers, [])

/-- Member `connectToHost(dest, port)`; `fresh` is the pointer `new TcpSocket(this)`
returns when the call reaches it. -/
def PeerLink.connectToHost (KEYS : List String) (s : PeerLink) (dest : QHostAddress)
    (port : quint16) (fresh : TcpSocketPtr) : PeerLink × List Effect :=
  let key := peerKey dest port
  let evicted := evictForDial s.m_peers key
  if s.m_allowMulti || evicted.1.empty then
    ({ s with m_peers := evicted.1.insert key fresh },
      evicted.2 ++ [Effect.newSocket fresh] ++ wireOutbound KEYS fresh ++
        [Effect.socketConnectToHost fresh dest port])
  else
    ({ s with m_peers := evicted.1 }, evicted.2)

/-- Member `setAllowMulti(allowMulti)`. -/
def PeerLink.setAllowMulti (s : PeerLink) (allowMulti : Bool) : PeerLink × List Effect :=
  ({ s with m_allowMulti := allowMulti }, [])

/-- Slot `connected()`; `sender` is the result of the `dynamic_cast` of `sender()`. -/
def PeerLink.connected (s : PeerLink) (sender : Option TcpSocket) : PeerLink × List Effect :=
  match sender with
  | some socket =>
    let key := peerKey socket.peerAddress socket.peerPort
    match s.m_peers.find key with
    | some _ => (s, [Effect.emitConnected socket.peerAddress socket.peerPort])
    | none => (s, [])
  | none => (s, [])

/-- Slot `disconnected()`. -/
def PeerLink.disconnected (s : PeerLink) (sender : Option TcpSocket) : PeerLink × List Effect :=
  match sender with
  | some socket =>
    let key := peerKey socket.peerAddress socket.peerPort
    match s.m_peers.find key with
    | some _ =>
      ({ s with m_peers := s.m_peers.erase key },
        [Effect.emitDisconnected socket.peerAddress socket.peerPort,
         Effect.deleteLater socket.ptr])
    | none => (s, [Effect.deleteLater socket.ptr])
  | none => (s, [])

/-- First block of `newConnection`: an entry already under the key is erased,
unwired, asked to disconnect and released. -/
def evictForAccept (peers : QMap) (key : String) : QMap × List Effect :=
  match peers.find key with
  | some socket =>
    (peers.erase key,
      [Effect.unwireAll socket, Effect.disconnectFromHost socket, Effect.deleteLater socket])
  | none => (peers, [])

/-- Slot `newConnection()`; `sock` is what `m_server->nextPendingConnection()` returns,
a connection being pending when the server raises the signal. -/
def PeerLink.newConnection (KEYS : List String) (s : PeerLink) (sock : TcpSocket) :
    PeerLink × List Effect :=
  let key := peerKey sock.peerAddress sock.peerPort
  let evicted := evictForAccept s.m_peers key
  if !s.m_allowMulti && !evicted.1.empty then
    ({ s with m_peers := evicted.1 },
      evicted.2 ++ [Effect.disconnectFromHost sock.ptr, Effect.deleteLater sock.ptr])
  else
    ({ s with m_peers := evicted.1.insert key sock.ptr },
      evicted.2 ++ wireInbound KEYS sock.ptr ++
        [Effect.emitConnected sock.peerAddress sock.peerPort])

/-- Slot `handle(e)`. -/
def PeerLink.handle (s : PeerLink) (sender : Option TcpSocket) (e : SocketError) :
    PeerLink × List Effect :=
  match sender with
  | some socket =>
    let key := peerKey socket.peerAddress socket.peerPort
    match s.m_peers.find key with
    | some _ =>
      ({ s with m_peers := s.m_peers.erase key },
        [Effect.deleteLater socket.ptr, Effect.emitError e])
    | none => (s, [Effect.deleteLater socket.ptr, Effect.emitError e])
  | none => (s, [Effect.emitError e])

/-- Member `transmit(data)`, one overload per message type. -/
def PeerLink.transmit (s : PeerLink) (data : DataPackage) : PeerLink × List Effect :=
  (s, (s.m_peers.values.filter (fun socket => socket ≠ 0)).map (fun socket => Effect.write socket data))

/-! ## Sequences of operations and events -/

/-- One call of a member function or one delivery of a signal to a slot. -/
inductive Op where
  | close
  | closeOne (peeraddr : QHostAddress) (peerport : quint16)
  | listen (isListening : Bool) (addr : QHostAddress) (port : quint16)
  | connectToHost (dest : QHostAddress) (port : quint16) (fresh : TcpSocketPtr)
  | setAllowMulti (allowMulti : Bool)
  | connected (sender : Option TcpSocket)
  | disconnected (sender : Option TcpSocket)
  | newConnection (sock : TcpSocket)
  | handle (sender : Option TcpSocket) (e : SocketError)
  | transmit (data : DataPackage)
deriving DecidableEq

/-- Effect of one operation on the object. -/
def step (KEYS : List String) (s : PeerLink) : Op → PeerLink × List Effect
  | Op.close => s.close
  | Op.closeOne a p => s.closeOne a p
  | Op.listen l a p => s.listen l a p
  | Op.connectToHost d p fresh => PeerLink.connectToHost KEYS s d p fresh
  | Op.setAllowMulti b => s.setAllowMulti b
  | Op.connected c => s.connected c
  | Op.disconnected c => s.disconnected c
  | Op.newConnection c => PeerLink.newConnection KEYS s c
  | Op.handle c e => s.handle c e
  | Op.transmit d => s.transmit d

/-- State after a sequence of operations, with every call issued on the way. -/
def run (KEYS : List String) (s : PeerLink) : List Op → PeerLink × List Effect
  | [] => (s, [])
  | op :: ops =>
    let r := step KEYS s op
    let rest := run KEYS r.1 ops
    (rest.1, r.2 ++ rest.2)

/-- Policy `admit(currentSize, allowMulti)` in the words of the specification:
true iff `allowMulti` is true, or `currentSize == 0`. -/
def policyAdmits (currentSize : Nat) (allowMulti : Bool) : Bool :=
  allowMulti || currentSize == 0

/-- Single-slot invariant: with the flag off the peer table holds at most one entry. -/
def SingleSlot (s : PeerLink) : Prop :=
  s.m_allowMulti = false → s.m_peers.size ≤ 1

/-- Along a sequence, every `setAllowMulti(false)` is called on a peer table
of at most one entry. -/
def ClearsFlagOnSmallTable (KEYS : List String) : PeerLink → List Op → Prop
  | _, [] => True
  | s, op :: ops =>
    (op = Op.setAllowMulti false → s.m_peers.size ≤ 1) ∧
      ClearsFlagOnSmallTable KEYS (step KEYS s op).1 ops

instance ClearsFlagOnSmallTable.decidable (KEYS : List String) :
    ∀ (s : PeerLink) (ops : List Op), Decidable (ClearsFlagOnSmallTable KEYS s ops)
  | _, [] => isTrue trivial
  | s, op :: ops =>
    @instDecidableAnd _ _ inferInstance
      (ClearsFlagOnSmallTable.decidable KEYS (step KEYS s op).1 ops)

/-- Endpoints of the `connected(addr, port)` signals among the calls issued. -/
def emittedConnected (effects : List Effect) : List (QHostAddress × quint16) :=
  effects.filterMap (fun e =>
    match e with
    | Effect.emitConnected a p => some (a, p)
    | _ => none)

/-- A live signal connection: the sending socket, its signal, the receiver. -/
abbrev Connection := TcpSocketPtr × SocketSignal × Receiver

/-- Connections after one call: `connect` adds one, `socket->disconnect()` removes
every connection of the socket, any other call leaves them. -/
def rewire (conns : List Connection) : Effect → List Connection
  | Effect.wire p sig r => conns ++ [(p, sig, r)]
  | Effect.unwireAll p => conns.filter (fun c => c.1 ≠ p)
  | _ => conns

/-- Connections after a list of calls, in order. -/
def connectionsAfter (conns : List Connection) (effects : List Effect) : List Connection :=
  effects.foldl rewire conns

/-- Some signal of the socket is connected to a slot or signal of the `PeerLink`. -/
def wiredToPeerLink (conns : List Connection) (p : TcpSocketPtr) : Bool :=
  conns.any (fun c => decide (c.1 = p) && decide (c.2.2 ≠ Receiver.socketDeleteLater))

/-- The pointer handed in by a `connectToHost` (the result of `new`) or by a
`newConnection` (the pending socket) is not one the peer table already stores. -/
def freshIn (s : PeerLink) : Op → Bool
  | Op.connectToHost _ _ fresh => !s.m_peers.values.contains fresh
  | Op.newConnection sock => !s.m_peers.values.contains sock.ptr
  | _ => true

/-- Along a sequence, every new or accepted socket is a pointer the peer table does
not store at that point. -/
def FreshSockets (KEYS : List String) : PeerLink → List Op → Prop
  | _, [] => True
  | s, op :: ops => freshIn s op = true ∧ FreshSockets KEYS (step KEYS s op).1 ops

instance FreshSockets.decidable (KEYS : List String) :
    ∀ (s : PeerLink) (ops : List Op), Decidable (FreshSockets KEYS s ops)
  | _, [] => isTrue trivial
  | s, op :: ops =>
    @instDecidableAnd _ _ inferInstance (FreshSockets.decidable KEYS (step KEYS s op).1 ops)

/-- The `receive` signals of every message type, the `disconnected` signal and the
`error` signal of the socket are connected to the `PeerLink`. -/
def Subscribed (KEYS : List String) (conns : List Connection) (p : TcpSocketPtr) : Prop :=
  (∀ k ∈ KEYS, (p, SocketSignal.receive k, Receiver.peerLinkReceive k) ∈ conns) ∧
  (p, SocketSignal.disconnected, Receiver.peerLinkDisconnected) ∈ conns ∧
  (p, SocketSignal.error, Receiver.peerLinkHandle) ∈ conns

/-- The channels of the peer table are pairwise distinct pointers and each of them is
subscribed. -/
def TableSubscribed (KEYS : List String) (s : PeerLink) (conns : List Connection) : Prop :=
  s.m_peers.values.Nodup ∧ ∀ k p, s.m_peers.find k = some p → Subscribed KEYS conns p

/-- Number read back from decimal digits, most significant first. -/
def decimalValue (acc : Nat) (cs : List Char) : Nat :=
  cs.foldl (fun a c => 10 * a + (c.toNat - 48)) acc

/-! ## Facts about the peer table -/

theorem findEntry_insertEntry_self (k : String) (v : TcpSocketPtr)
    (m : List (String × TcpSocketPtr)) : findEntry k (insertEntry k v m) = some v := by
  induction m with
  | nil => simp [insertEntry, findEntry]
  | cons e m ih =>
    obtain ⟨k2, v2⟩ := e
    unfold insertEntry
    by_cases h1 : keyLt k k2
    · simp [h1, findEntry]
    · by_cases h2 : k = k2
      · subst h2
        simp [h1, findEntry]
      · simp [h1, h2, findEntry, ih]

theorem findEntry_insertEntry_ne {k x : String} (v : TcpSocketPtr)
    (m : List (String × TcpSocketPtr)) (hx : x ≠ k) :
    findEntry x (insertEntry k v m) = findEntry x m := by
  induction m with
  | nil => simp [insertEntry, findEntry, hx]
  | cons e m ih =>
    obtain ⟨k2, v2⟩ := e
    unfold insertEntry
    by_cases h1 : keyLt k k2
    · simp [h1, findEntry, hx]
    · by_cases h2 : k = k2
      · subst h2
        simp [h1, findEntry, hx]
      · simp only [h1, h2, if_false, findEntry, ih]

theorem findEntry_eraseEntry_ne {k x : String} (m : List (String × TcpSocketPtr))
    (hx : x ≠ k) : findEntry x (eraseEntry k m) = findEntry x m := by
  induction m with
  | nil => simp [eraseEntry]
  | cons e m ih =>
    obtain ⟨k2, v2⟩ := e
    unfold eraseEntry
    by_cases h : k = k2
    · subst h
      simp [findEntry, hx]
    · simp only [h, if_false, findEntry, ih]

theorem findEntry_eq_none_iff (k : String) (m : List (String × TcpSocketPtr)) :
    findEntry k m = none ↔ k ∉ m.map Prod.fst := by
  induction m with
  | nil => simp [findEntry]
  | cons e m ih =>
    obtain ⟨k2, v2⟩ := e
    by_cases h : k = k2
    · simp [findEntry, h]
    · simp [findEntry, h, ih]

theorem findEntry_eraseEntry_self (k : String) (m : List (String × TcpSocketPtr))
    (hm : Ascending m) : findEntry k (eraseEntry k m) = none := by
  induction m with
  | nil => simp [eraseEntry, findEntry]
  | cons e m ih =>
    obtain ⟨k2, v2⟩ := e
    unfold Ascending at hm
    simp only [List.map_cons, List.pairwise_cons] at hm
    obtain ⟨hhd, htl⟩ := hm
    unfold eraseEntry
    by_cases h : k = k2
    · subst h
      simp only [if_true]
      rw [findEntry_eq_none_iff]
      intro hmem
      exact keyLt_irrefl k (hhd k hmem)
    · simp only [h, if_false, findEntry]
      exact ih htl

theorem eraseEntry_of_find_none (k : String) (m : List (String × TcpSocketPtr))
    (h : findEntry k m = none) : eraseEntry k m = m := by
  induction m with
  | nil => simp [eraseEntry]
  | cons e m ih =>
    obtain ⟨k2, v2⟩ := e
    by_cases hk : k = k2
    · simp [findEntry, hk] at h
    · simp only [findEntry, hk, if_false] at h
      simp [eraseEntry, hk, ih h]

theorem length_eraseEntry_of_find_some (k : String) (v : TcpSocketPtr)
    (m : List (String × TcpSocketPtr)) (h : findEntry k m = some v) :
    (eraseEntry k m).length + 1 = m.length := by
  induction m with
  | nil => simp [findEntry] at h
  | cons e m ih =>
    obtain ⟨k2, v2⟩ := e
    by_cases hk : k = k2
    · simp [eraseEntry, hk]
    · simp only [findEntry, hk, if_false] at h
      simp [eraseEntry, hk, ih h]

theorem length_insertEntry_le (k : String) (v : TcpSocketPtr)
    (m : List (String × TcpSocketPtr)) : (insertEntry k v m).length ≤ m.length + 1 := by
  induction m with
  | nil => simp [insertEntry]
  | cons e m ih =>
    obtain ⟨k2, v2⟩ := e
    unfold insertEntry
    by_cases h1 : keyLt k k2
    · simp [h1]
    · by_cases h2 : k = k2
      · subst h2
        simp [h1]
      · simp only [h1, h2, if_false, List.length_cons]
        omega

theorem QMap.find_insert_self (m : QMap) (k : String) (v : TcpSocketPtr) :
    (m.insert k v).find k = some v :=
  findEntry_insertEntry_self k v m.entries

theorem QMap.find_insert_ne (m : QMap) {k x : String} (v : TcpSocketPtr) (hx : x ≠ k) :
    (m.insert k v).find x = m.find x :=
  findEntry_insertEntry_ne v m.entries hx

theorem QMap.find_erase_self (m : QMap) (k : String) : (m.erase k).find k = none :=
  findEntry_eraseEntry_self k m.entries m.ascending

theorem QMap.find_erase_ne (m : QMap) {k x : String} (hx : x ≠ k) :
    (m.erase k).find x = m.find x :=
  findEntry_eraseEntry_ne m.entries hx

theorem QMap.erase_of_find_none (m : QMap) (k : String) (h : m.find k = none) :
    m.erase k = m :=
  QMap.ext_entries (eraseEntry_of_find_none k m.entries h)

theorem QMap.mem_keys_iff (m : QMap) (k : String) : k ∈ m.keys ↔ m.find k ≠ none := by
  unfold QMap.keys QMap.find
  rw [Ne, findEntry_eq_none_iff, not_not]

theorem QMap.size_erase_of_find_some (m : QMap) (k : String) (v : TcpSocketPtr)
    (h : m.find k = some v) : (m.erase k).size + 1 = m.size :=
  length_eraseEntry_of_find_some k v m.entries h

theorem QMap.size_insert_le (m : QMap) (k : String) (v : TcpSocketPtr) :
    (m.insert k v).size ≤ m.size + 1 :=
  length_insertEntry_le k v m.entries

theorem QMap.empty_iff_size (m : QMap) : m.empty = true ↔ m.size = 0 := by
  unfold QMap.empty QMap.size
  cases m.entries <;> simp

/-! ## Eviction, admission and the single-slot invariant -/

theorem length_eraseEntry_le (k : String) (m : List (String × TcpSocketPtr)) :
    (eraseEntry k m).length ≤ m.length := by
  simpa using (keys_eraseEntry_sublist k m).length_le

theorem QMap.size_erase_le (m : QMap) (k : String) : (m.erase k).size ≤ m.size :=
  length_eraseEntry_le k m.entries

theorem evictForDial_table (peers : QMap) (key : String) :
    (evictForDial peers key).1 = peers.erase key := by
  unfold evictForDial
  cases h : peers.find key with
  | none => simp [QMap.erase_of_find_none peers key h]
  | some v => simp

theorem evictForAccept_table (peers : QMap) (key : String) :
    (evictForAccept peers key).1 = peers.erase key := by
  unfold evictForAccept
  cases h : peers.find key with
  | none => simp [QMap.erase_of_find_none peers key h]
  | some v => simp

theorem connectToHost_allowMulti (KEYS : List String) (s : PeerLink) (dest : QHostAddress)
    (port : quint16) (fresh : TcpSocketPtr) :
    (PeerLink.connectToHost KEYS s dest port fresh).1.m_allowMulti = s.m_allowMulti := by
  unfold PeerLink.connectToHost
  simp only
  split <;> rfl

theorem newConnection_allowMulti (KEYS : List String) (s : PeerLink) (sock : TcpSocket) :
    (PeerLink.newConnection KEYS s sock).1.m_allowMulti = s.m_allowMulti := by
  unfold PeerLink.newConnection
  simp only
  split <;> rfl

theorem connectToHost_table (KEYS : List String) (s : PeerLink) (dest : QHostAddress)
    (port : quint16) (fresh : TcpSocketPtr) :
    (PeerLink.connectToHost KEYS s dest port fresh).1.m_peers =
      if policyAdmits (s.m_peers.erase (peerKey dest port)).size s.m_allowMulti then
        (s.m_peers.erase (peerKey dest port)).insert (peerKey dest port) fresh
      else s.m_peers.erase (peerKey dest port) := by
  unfold PeerLink.connectToHost policyAdmits
  simp only [evictForDial_table]
  have he := QMap.empty_iff_size (s.m_peers.erase (peerKey dest port))
  by_cases h : (s.m_allowMulti || (s.m_peers.erase (peerKey dest port)).empty) = true
  · have h2 : (s.m_allowMulti || (s.m_peers.erase (peerKey dest port)).size == 0) = true := by
      simp only [Bool.or_eq_true, beq_iff_eq] at h ⊢
      exact h.imp id he.mp
    simp [h, h2]
  · have h2 : ¬ (s.m_allowMulti || (s.m_peers.erase (peerKey dest port)).size == 0) = true := by
      simp only [Bool.or_eq_true, beq_iff_eq] at h ⊢
      exact fun hh => h (hh.imp id he.mpr)
    simp [h, h2]

theorem newConnection_table (KEYS : List String) (s : PeerLink) (sock : TcpSocket) :
    (PeerLink.newConnection KEYS s sock).1.m_peers =
      if policyAdmits (s.m_peers.erase (peerKey sock.peerAddress sock.peerPort)).size
          s.m_allowMulti then
        (s.m_peers.erase (peerKey sock.peerAddress sock.peerPort)).insert
          (peerKey sock.peerAddress sock.peerPort) sock.ptr
      else s.m_peers.erase (peerKey sock.peerAddress sock.peerPort) := by
  unfold PeerLink.newConnection policyAdmits
  simp only [evictForAccept_table]
  have he := QMap.empty_iff_size (s.m_peers.erase (peerKey sock.peerAddress sock.peerPort))
  cases hm : s.m_allowMulti
  · by_cases h : (s.m_peers.erase (peerKey sock.peerAddress sock.peerPort)).empty = true
    · simp [h, he.mp h]
    · have h3 : ¬ (s.m_peers.erase (peerKey sock.peerAddress sock.peerPort)).size = 0 :=
        fun hh => h (he.mpr hh)
      simp [h, h3]
  · simp

theorem singleSlot_step (KEYS : List String) (s : PeerLink) (op : Op) (hs : SingleSlot s)
    (hg : op = Op.setAllowMulti false → s.m_peers.size ≤ 1) :
    SingleSlot (step KEYS s op).1 := by
  unfold SingleSlot at *
  cases op with
  | close => intro _; simp [step, PeerLink.close, QMap.clear, QMap.size]
  | closeOne a p =>
    simp only [step, PeerLink.closeOne]
    cases h : s.m_peers.find (peerKey a p) with
    | none => simpa using hs
    | some v =>
      intro hf
      have := QMap.size_erase_le s.m_peers (peerKey a p)
      have := hs hf
      simp only
      omega
  | listen l a p => simpa [step, PeerLink.listen] using hs
  | connectToHost d p fresh =>
    simp only [step]
    intro hf
    rw [connectToHost_allowMulti] at hf
    rw [connectToHost_table]
    have h1 := QMap.size_erase_le s.m_peers (peerKey d p)
    have h2 := hs hf
    have h3 := QMap.size_insert_le (s.m_peers.erase (peerKey d p)) (peerKey d p) fresh
    split
    · rename_i ha
      simp only [policyAdmits, hf, Bool.false_or, beq_iff_eq] at ha
      omega
    · omega
  | setAllowMulti b =>
    simp only [step, PeerLink.setAllowMulti]
    intro hb
    exact hg (by rw [hb])
  | connected c =>
    simp only [step, PeerLink.connected]
    cases c with
    | none => simpa using hs
    | some c =>
      simp only
      cases h : s.m_peers.find (peerKey c.peerAddress c.peerPort) <;> simpa using hs
  | disconnected c =>
    simp only [step, PeerLink.disconnected]
    cases c with
    | none => simpa using hs
    | some c =>
      simp only
      cases h : s.m_peers.find (peerKey c.peerAddress c.peerPort) with
      | none => simpa using hs
      | some v =>
        intro hf
        have := QMap.size_erase_le s.m_peers (peerKey c.peerAddress c.peerPort)
        have := hs hf
        simp only
        omega
  | newConnection c =>
    simp only [step]
    intro hf
    rw [newConnection_allowMulti] at hf
    rw [newConnection_table]
    have h1 := QMap.size_erase_le s.m_peers (peerKey c.peerAddress c.peerPort)
    have h2 := hs hf
    have h3 := QMap.size_insert_le (s.m_peers.erase (peerKey c.peerAddress c.peerPort))
      (peerKey c.peerAddress c.peerPort) c.ptr
    split
    · rename_i ha
      simp only [policyAdmits, hf, Bool.false_or, beq_iff_eq] at ha
      omega
    · omega
  | handle c e =>
    simp only [step, PeerLink.handle]
    cases c with
    | none => simpa using hs
    | some c =>
      simp only
      cases h : s.m_peers.find (peerKey c.peerAddress c.peerPort) with
      | none => simpa using hs
      | some v =>
        intro hf
        have := QMap.size_erase_le s.m_peers (peerKey c.peerAddress c.peerPort)
        have := hs hf
        simp only
        omega
  | transmit d => simpa [step, PeerLink.transmit] using hs

theorem singleSlot_run (KEYS : List String) (ops : List Op) : ∀ (s : PeerLink), SingleSlot s →
    ClearsFlagOnSmallTable KEYS s ops → SingleSlot (run KEYS s ops).1 := by
  induction ops with
  | nil => intro s hs _; simpa [run] using hs
  | cons op ops ih =>
    intro s hs hg
    obtain ⟨hg1, hg2⟩ := hg
    simp only [run]
    exact ih _ (singleSlot_step KEYS s op hs hg1) hg2

theorem clearsFlag_take (KEYS : List String) (ops : List Op) : ∀ (s : PeerLink) (n : Nat),
    ClearsFlagOnSmallTable KEYS s ops → ClearsFlagOnSmallTable KEYS s (ops.take n) := by
  induction ops with
  | nil => intro s n h; simpa using h
  | cons op ops ih =>
    intro s n h
    cases n with
    | zero => simp [ClearsFlagOnSmallTable]
    | succ n =>
      obtain ⟨h1, h2⟩ := h
      simp only [List.take_succ_cons, ClearsFlagOnSmallTable]
      exact ⟨h1, ih _ n h2⟩

theorem step_server (KEYS : List String) (s : PeerLink) (op : Op) :
    (step KEYS s op).1.m_server = s.m_server := by
  cases op with
  | close => rfl
  | closeOne a p =>
    simp only [step, PeerLink.closeOne]
    cases h : s.m_peers.find (peerKey a p) <;> rfl
  | listen l a p => rfl
  | connectToHost d p fresh =>
    simp only [step, PeerLink.connectToHost]
    split <;> rfl
  | setAllowMulti b => rfl
  | connected c =>
    simp only [step, PeerLink.connected]
    cases c with
    | none => rfl
    | some c =>
      simp only
      cases h : s.m_peers.find (peerKey c.peerAddress c.peerPort) <;> rfl
  | disconnected c =>
    simp only [step, PeerLink.disconnected]
    cases c with
    | none => rfl
    | some c =>
      simp only
      cases h : s.m_peers.find (peerKey c.peerAddress c.peerPort) <;> rfl
  | newConnection c =>
    simp only [step, PeerLink.newConnection]
    split <;> rfl
  | handle c e =>
    simp only [step, PeerLink.handle]
    cases c with
    | none => rfl
    | some c =>
      simp only
      cases h : s.m_peers.find (peerKey c.peerAddress c.peerPort) <;> rfl
  | transmit d => rfl

/-- No operation changes the server pointer the constructor set. -/
theorem run_server (KEYS : List String) (ops : List Op) : ∀ (s : PeerLink),
    (run KEYS s ops).1.m_server = s.m_server := by
  induction ops with
  | nil => intro s; rfl
  | cons op ops ih =>
    intro s
    simp only [run]
    rw [ih, step_server]

/-! ## The key is faithful to the endpoint -/

theorem digitChar_facts : ∀ d : Nat, d < 10 →
    Nat.digitChar d ≠ ':' ∧ (Nat.digitChar d).toNat - 48 = d := by
  decide

theorem toDigitsCore_no_colon (fuel : Nat) : ∀ (n : Nat) (ds : List Char),
    (∀ c ∈ ds, c ≠ ':') → ∀ c ∈ Nat.toDigitsCore 10 fuel n ds, c ≠ ':' := by
  induction fuel with
  | zero => intro n ds h; simpa [Nat.toDigitsCore] using h
  | succ fuel ih =>
    intro n ds h
    have hd : ∀ c ∈ Nat.digitChar (n % 10) :: ds, c ≠ ':' := by
      intro c hc
      rcases List.mem_cons.mp hc with hc | hc
      · rw [hc]; exact (digitChar_facts (n % 10) (Nat.mod_lt n (by decide))).1
      · exact h c hc
    unfold Nat.toDigitsCore
    by_cases h0 : n / 10 = 0
    · simpa [h0] using hd
    · simp only [h0, if_false]
      exact ih (n / 10) _ hd

theorem decimalValue_toDigitsCore (fuel : Nat) : ∀ (n : Nat) (ds : List Char), n < fuel →
    decimalValue 0 (Nat.toDigitsCore 10 fuel n ds) = decimalValue n ds := by
  induction fuel with
  | zero => intro n ds h; omega
  | succ fuel ih =>
    intro n ds h
    have hv := (digitChar_facts (n % 10) (Nat.mod_lt n (by decide))).2
    unfold Nat.toDigitsCore
    by_cases h0 : n / 10 = 0
    · simp only [h0, if_true]
      unfold decimalValue
      simp only [List.foldl_cons, hv]
      congr 1
      omega
    · simp only [h0, if_false]
      rw [ih (n / 10) _ (by omega)]
      unfold decimalValue
      simp only [List.foldl_cons, hv]
      congr 1
      omega

theorem number_injective {p q : quint16} (h : QString.number p = QString.number q) : p = q := by
  unfold QString.number Nat.repr at h
  have h2 : Nat.toDigits 10 p.val = Nat.toDigits 10 q.val := by
    have := congrArg String.data h
    simpa using this
  have hp := decimalValue_toDigitsCore (p.val + 1) p.val [] (by omega)
  have hq := decimalValue_toDigitsCore (q.val + 1) q.val [] (by omega)
  unfold Nat.toDigits at h2
  rw [h2, hq] at hp
  simp only [decimalValue, List.foldl_nil] at hp
  exact Fin.ext hp.symm

theorem split_at_last_colon (h1 h2 d1 d2 : List Char)
    (n1 : ∀ c ∈ d1, c ≠ ':') (n2 : ∀ c ∈ d2, c ≠ ':')
    (h : h1 ++ ':' :: d1 = h2 ++ ':' :: d2) : h1 = h2 ∧ d1 = d2 := by
  rcases List.append_eq_append_iff.mp h with ⟨a, ha, hb⟩ | ⟨a, ha, hb⟩
  · cases a with
    | nil => simp at ha hb; exact ⟨ha.symm, hb⟩
    | cons x a =>
      simp only [List.cons_append, List.cons.injEq] at hb
      exact absurd rfl (n1 ':' (by rw [hb.2]; simp))
  · cases a with
    | nil => simp at ha hb; exact ⟨ha, hb.symm⟩
    | cons x a =>
      simp only [List.cons_append, List.cons.injEq] at hb
      exact absurd rfl (n2 ':' (by rw [hb.2]; simp))

theorem peerKey_injective {a b : QHostAddress} {p q : quint16}
    (h : peerKey a p = peerKey b q) : a = b ∧ p = q := by
  have hd : a.text.data ++ ':' :: (QString.number p).data
      = b.text.data ++ ':' :: (QString.number q).data := by
    have := congrArg String.data h
    simpa [peerKey, QHostAddress.toString] using this
  have np : ∀ x : quint16, ∀ c ∈ (QString.number x).data, c ≠ ':' := by
    intro x c hc
    exact toDigitsCore_no_colon _ _ [] (by simp) c (by simpa [QString.number, Nat.repr, Nat.toDigits] using hc)
  obtain ⟨e1, e2⟩ := split_at_last_colon _ _ _ _ (np p) (np q) hd
  refine ⟨?_, number_injective (String.ext e2)⟩
  cases a; cases b
  simp only [QHostAddress.mk.injEq]
  exact String.ext e1

theorem peerKey_ne {a b : QHostAddress} {p q : quint16} (h : (a, p) ≠ (b, q)) :
    peerKey a p ≠ peerKey b q := by
  intro hk
  obtain ⟨h1, h2⟩ := peerKey_injective hk
  exact h (by rw [h1, h2])

theorem emittedConnected_wireInbound (KEYS : List String) (p : TcpSocketPtr) :
    emittedConnected (wireInbound KEYS p) = [] := by
  unfold emittedConnected wireInbound
  simp [List.filterMap_append, List.filterMap_map]

theorem count_map_nonnull (f : TcpSocketPtr → Effect) (hf : Function.Injective f)
    (vals : List TcpSocketPtr) (p : TcpSocketPtr) :
    ((vals.filter (fun socket => socket ≠ 0)).map f).count (f p) =
      if p = 0 then 0 else vals.count p := by
  rw [List.count_map_of_injective _ f hf]
  by_cases hp : p = 0
  · subst hp
    simp only [if_true]
    apply List.count_eq_zero_of_not_mem
    simp
  · simp only [hp, if_false]
    exact List.count_filter (by simpa using hp)

theorem QMap.mem_keys_insert (m : QMap) (k : String) (v : TcpSocketPtr) (x : String) :
    x ∈ (m.insert k v).keys ↔ x = k ∨ x ∈ m.keys :=
  mem_keys_insertEntry k v m.entries x

theorem QMap.mem_keys_erase (m : QMap) (k x : String) :
    x ∈ (m.erase k).keys ↔ x ≠ k ∧ x ∈ m.keys := by
  rw [QMap.mem_keys_iff, QMap.mem_keys_iff]
  by_cases h : x = k
  · subst h
    simp [QMap.find_erase_self]
  · simp [h, QMap.find_erase_ne m h]

theorem connectToHost_calls (KEYS : List String) (s : PeerLink) (dest : QHostAddress)
    (port : quint16) (fresh : TcpSocketPtr) (h : s.m_allowMulti = true) :
    (PeerLink.connectToHost KEYS s dest port fresh).2 =
      (evictForDial s.m_peers (peerKey dest port)).2 ++ [Effect.newSocket fresh] ++
        wireOutbound KEYS fresh ++ [Effect.socketConnectToHost fresh dest port] := by
  simp [PeerLink.connectToHost, h]

theorem values_eraseEntry_perm (k : String) (v : TcpSocketPtr)
    (m : List (String × TcpSocketPtr)) (h : findEntry k m = some v) :
    (m.map Prod.snd).Perm (v :: (eraseEntry k m).map Prod.snd) := by
  induction m with
  | nil => simp [findEntry] at h
  | cons e m ih =>
    obtain ⟨k2, v2⟩ := e
    by_cases hk : k = k2
    · simp only [findEntry, hk, if_true, Option.some.injEq] at h
      simp [eraseEntry, hk, h]
    · simp only [findEntry, hk, if_false] at h
      simp only [eraseEntry, hk, if_false, List.map_cons]
      exact ((ih h).cons v2).trans (List.Perm.swap v v2 _)

theorem values_insertEntry_perm (k : String) (v : TcpSocketPtr)
    (m : List (String × TcpSocketPtr)) (h : findEntry k m = none) :
    ((insertEntry k v m).map Prod.snd).Perm (v :: m.map Prod.snd) := by
  induction m with
  | nil => simp [insertEntry]
  | cons e m ih =>
    obtain ⟨k2, v2⟩ := e
    by_cases hk : k = k2
    · simp [findEntry, hk] at h
    · simp only [findEntry, hk, if_false] at h
      unfold insertEntry
      by_cases h1 : keyLt k k2
      · simp [h1]
      · simp only [h1, hk, if_false, List.map_cons]
        exact ((ih h).cons v2).trans (List.Perm.swap v v2 _)

theorem QMap.keys_nodup (m : QMap) : m.keys.Nodup := by
  have h := m.ascending
  unfold Ascending at h
  unfold QMap.keys List.Nodup
  refine List.Pairwise.imp ?_ h
  intro a b hab heq
  rw [heq] at hab
  exact keyLt_irrefl b hab

theorem QMap.count_values_replace (m : QMap) (k : String) (old v p : TcpSocketPtr)
    (h : m.find k = some old) :
    ((m.erase k).insert k v).values.count p + (if p = old then 1 else 0) =
      m.values.count p + (if p = v then 1 else 0) := by
  have h1 := (values_eraseEntry_perm k old m.entries h).count_eq p
  have h2 := (values_insertEntry_perm k v (m.erase k).entries
    (QMap.find_erase_self m k)).count_eq p
  unfold QMap.values
  simp only [QMap.insert, QMap.erase] at h2 ⊢
  rw [List.count_cons] at h1 h2
  rw [h2, h1]
  simp only [beq_iff_eq]
  have e1 : (old = p) = (p = old) := propext eq_comm
  have e2 : (v = p) = (p = v) := propext eq_comm
  simp only [e1, e2]
  omega

theorem count_deleteLater_wireInbound (KEYS : List String) (p q : TcpSocketPtr) :
    (wireInbound KEYS p).count (Effect.deleteLater q) = 0 := by
  apply List.count_eq_zero_of_not_mem
  simp [wireInbound]

theorem count_deleteLater_wireOutbound (KEYS : List String) (p q : TcpSocketPtr) :
    (wireOutbound KEYS p).count (Effect.deleteLater q) = 0 := by
  apply List.count_eq_zero_of_not_mem
  simp [wireOutbound]

theorem connectionsAfter_append (w : List Connection) (a b : List Effect) :
    connectionsAfter w (a ++ b) = connectionsAfter (connectionsAfter w a) b := by
  simp [connectionsAfter, List.foldl_append]

theorem connectionsAfter_cons (w : List Connection) (e : Effect) (b : List Effect) :
    connectionsAfter w (e :: b) = connectionsAfter (rewire w e) b := rfl

theorem wired_rewire_wire (w : List Connection) (p : TcpSocketPtr) (sig : SocketSignal)
    (r : Receiver) (hr : r ≠ Receiver.socketDeleteLater) :
    wiredToPeerLink (rewire w (Effect.wire p sig r)) p = true := by
  simp [wiredToPeerLink, rewire, hr]

theorem unwired_rewire_unwireAll (w : List Connection) (p : TcpSocketPtr) :
    wiredToPeerLink (rewire w (Effect.unwireAll p)) p = false := by
  simp only [wiredToPeerLink, rewire, List.any_eq_false, List.mem_filter]
  intro c hc
  simp at hc
  simp [hc.2]

theorem wired_preserved (p : TcpSocketPtr) (effects : List Effect) :
    ∀ (w : List Connection), wiredToPeerLink w p = true →
      (∀ e ∈ effects, e ≠ Effect.unwireAll p) →
      wiredToPeerLink (connectionsAfter w effects) p = true := by
  induction effects with
  | nil => intro w h _; exact h
  | cons e effects ih =>
    intro w h hno
    rw [connectionsAfter_cons]
    apply ih
    · cases e with
      | wire q sig r =>
        simp only [wiredToPeerLink, rewire, List.any_append, Bool.or_eq_true] at h ⊢
        exact Or.inl h
      | unwireAll q =>
        have hq : q ≠ p := fun hq => hno (Effect.unwireAll q) (by simp) (by rw [hq])
        simp only [wiredToPeerLink, rewire, List.any_eq_true, List.mem_filter] at h ⊢
        obtain ⟨c, hc, hcp⟩ := h
        refine ⟨c, ⟨hc, ?_⟩, hcp⟩
        simp only [Bool.and_eq_true, decide_eq_true_eq] at hcp
        simp [hcp.1, Ne.symm hq]
      | _ => exact h
    · intro e2 he2
      exact hno e2 (List.mem_cons_of_mem _ he2)

theorem unwired_preserved (p : TcpSocketPtr) (effects : List Effect) :
    ∀ (w : List Connection), wiredToPeerLink w p = false →
      (∀ sig r, Effect.wire p sig r ∈ effects → r = Receiver.socketDeleteLater) →
      wiredToPeerLink (connectionsAfter w effects) p = false := by
  induction effects with
  | nil => intro w h _; exact h
  | cons e effects ih =>
    intro w h hno
    rw [connectionsAfter_cons]
    apply ih
    · cases e with
      | wire q sig r =>
        simp only [wiredToPeerLink, rewire, List.any_append, Bool.or_eq_false_iff] at h ⊢
        refine ⟨h, ?_⟩
        by_cases hq : q = p
        · subst hq
          have := hno sig r (by simp)
          simp [this]
        · simp [hq]
      | unwireAll q =>
        simp only [wiredToPeerLink, rewire, List.any_eq_false, List.mem_filter] at h ⊢
        intro c hc
        exact h c hc.1
      | _ => exact h
    · intro sig r hmem
      exact hno sig r (List.mem_cons_of_mem _ hmem)

theorem connectionsAfter_unchanged (w : List Connection) (effects : List Effect)
    (h : ∀ e ∈ effects, (∀ p sig r, e ≠ Effect.wire p sig r) ∧ (∀ p, e ≠ Effect.unwireAll p)) :
    connectionsAfter w effects = w := by
  induction effects with
  | nil => rfl
  | cons e effects ih =>
    rw [connectionsAfter_cons]
    have he := h e (by simp)
    have : rewire w e = w := by
      cases e with
      | wire q sig r => exact absurd rfl (he.1 q sig r)
      | unwireAll q => exact absurd rfl (he.2 q)
      | _ => rfl
    rw [this]
    exact ih (fun e2 he2 => h e2 (List.mem_cons_of_mem _ he2))

theorem findEntry_mem (k : String) (p : TcpSocketPtr) (m : List (String × TcpSocketPtr))
    (h : findEntry k m = some p) : (k, p) ∈ m := by
  induction m with
  | nil => simp [findEntry] at h
  | cons e m ih =>
    obtain ⟨k2, v2⟩ := e
    by_cases hk : k = k2
    · simp only [findEntry, hk, if_true, Option.some.injEq] at h
      simp [hk, h]
    · simp only [findEntry, hk, if_false] at h
      exact List.mem_cons_of_mem _ (ih h)

theorem findEntry_of_mem (k : String) (p : TcpSocketPtr) (m : List (String × TcpSocketPtr))
    (hm : Ascending m) (h : (k, p) ∈ m) : findEntry k m = some p := by
  induction m with
  | nil => simp at h
  | cons e m ih =>
    obtain ⟨k2, v2⟩ := e
    unfold Ascending at hm
    simp only [List.map_cons, List.pairwise_cons] at hm
    obtain ⟨hhd, htl⟩ := hm
    rcases List.mem_cons.mp h with h1 | h1
    · simp only [Prod.mk.injEq] at h1
      simp [findEntry, h1.1, h1.2]
    · by_cases hk : k = k2
      · subst hk
        exact absurd (hhd k (List.mem_map_of_mem Prod.fst h1)) (keyLt_irrefl k)
      · simp only [findEntry, hk, if_false]
        exact ih htl h1

theorem QMap.find_iff_mem (m : QMap) (k : String) (p : TcpSocketPtr) :
    m.find k = some p ↔ (k, p) ∈ m.entries :=
  ⟨findEntry_mem k p m.entries, findEntry_of_mem k p m.entries m.ascending⟩

theorem QMap.mem_values_of_find (m : QMap) (k : String) (p : TcpSocketPtr)
    (h : m.find k = some p) : p ∈ m.values :=
  List.mem_map_of_mem Prod.snd ((QMap.find_iff_mem m k p).mp h)

theorem QMap.find_of_find_erase (m : QMap) (k x : String) (p : TcpSocketPtr)
    (h : (m.erase k).find x = some p) : x ≠ k ∧ m.find x = some p := by
  by_cases hx : x = k
  · subst hx
    rw [QMap.find_erase_self] at h
    simp at h
  · rw [QMap.find_erase_ne _ hx] at h
    exact ⟨hx, h⟩

theorem values_eraseEntry_sublist (k : String) (m : List (String × TcpSocketPtr)) :
    ((eraseEntry k m).map Prod.snd).Sublist (m.map Prod.snd) := by
  induction m with
  | nil => simp [eraseEntry]
  | cons e m ih =>
    obtain ⟨k2, v2⟩ := e
    unfold eraseEntry
    by_cases h : k = k2
    · simp [h]
    · simp only [h, if_false, List.map_cons]
      exact ih.cons₂ v2

theorem QMap.values_erase_sublist (m : QMap) (k : String) :
    (m.erase k).values.Sublist m.values :=
  values_eraseEntry_sublist k m.entries

theorem QMap.values_insert_erase_nodup (m : QMap) (k : String) (v : TcpSocketPtr)
    (hnd : m.values.Nodup) (hv : v ∉ m.values) :
    ((m.erase k).insert k v).values.Nodup := by
  have hperm := values_insertEntry_perm k v (m.erase k).entries (QMap.find_erase_self m k)
  have hsub := QMap.values_erase_sublist m k
  have h1 : (v :: (m.erase k).values).Nodup :=
    List.nodup_cons.mpr ⟨fun h => hv (hsub.subset h), hnd.sublist hsub⟩
  exact (hperm.nodup_iff).mpr h1

theorem QMap.ne_of_nodup_values (m : QMap) (k x : String) (old p : TcpSocketPtr)
    (hnd : m.values.Nodup) (hk : m.find k = some old) (hx : m.find x = some p)
    (hne : x ≠ k) : p ≠ old := by
  have hperm := values_eraseEntry_perm k old m.entries hk
  have h1 : (old :: (m.erase k).values).Nodup := (hperm.nodup_iff).mp hnd
  have h2 : p ∈ (m.erase k).values := by
    apply QMap.mem_values_of_find _ x
    rw [QMap.find_erase_ne _ hne]
    exact hx
  intro hp
  rw [hp] at h2
  exact (List.nodup_cons.mp h1).1 h2

theorem count_values_eq_entries (p : TcpSocketPtr) (m : List (String × TcpSocketPtr)) :
    (m.map Prod.snd).count p = (m.filter (fun en => decide (en.2 = p))).length := by
  induction m with
  | nil => rfl
  | cons e m ih =>
    obtain ⟨k2, v2⟩ := e
    by_cases h : v2 = p
    · simp [List.filter_cons, h, ih]
    · simp [List.filter_cons, h, ih, List.count_cons]

theorem nonnull_values_eq_entries (m : List (String × TcpSocketPtr)) (f : TcpSocketPtr → Effect) :
    ((m.map Prod.snd).filter (fun socket => socket ≠ 0)).map f =
      (m.filter (fun en => decide (en.2 ≠ 0))).map (fun en => f en.2) := by
  induction m with
  | nil => rfl
  | cons e m ih =>
    obtain ⟨k2, v2⟩ := e
    by_cases h : v2 = 0
    · simpa [List.filter_cons, h] using ih
    · simpa [List.filter_cons, h] using ih

theorem mem_connectionsAfter_of_mem (effects : List Effect) :
    ∀ (w : List Connection) (c : Connection), c ∈ w →
      (∀ q, Effect.unwireAll q ∈ effects → q ≠ c.1) → c ∈ connectionsAfter w effects := by
  induction effects with
  | nil => intro w c h _; exact h
  | cons e effects ih =>
    intro w c h hno
    rw [connectionsAfter_cons]
    apply ih
    · cases e with
      | wire q sig r => exact List.mem_append_left _ h
      | unwireAll q =>
        have hq := hno q (by simp)
        simp only [rewire, List.mem_filter]
        exact ⟨h, by simpa using Ne.symm hq⟩
      | _ => exact h
    · intro q hq
      exact hno q (List.mem_cons_of_mem _ hq)

theorem mem_connectionsAfter_of_wire (post : List Effect) :
    ∀ (w : List Connection) (p : TcpSocketPtr) (sig : SocketSignal) (r : Receiver),
      Effect.wire p sig r ∈ post → (∀ q, Effect.unwireAll q ∉ post) →
      (p, sig, r) ∈ connectionsAfter w post := by
  induction post with
  | nil => intro w p sig r h _; simp at h
  | cons e post ih =>
    intro w p sig r h hno
    rw [connectionsAfter_cons]
    have hno2 : ∀ q, Effect.unwireAll q ∉ post :=
      fun q hq => hno q (List.mem_cons_of_mem _ hq)
    rcases List.mem_cons.mp h with h1 | h1
    · apply mem_connectionsAfter_of_mem
      · rw [← h1]
        simp [rewire]
      · intro q hq
        exact absurd hq (hno2 q)
    · exact ih _ p sig r h1 hno2

theorem connectToHost_effects (KEYS : List String) (s : PeerLink) (dest : QHostAddress)
    (port : quint16) (fresh : TcpSocketPtr) :
    (PeerLink.connectToHost KEYS s dest port fresh).2 =
      (evictForDial s.m_peers (peerKey dest port)).2 ++
        (if policyAdmits (s.m_peers.erase (peerKey dest port)).size s.m_allowMulti then
          [Effect.newSocket fresh] ++ wireOutbound KEYS fresh ++
            [Effect.socketConnectToHost fresh dest port]
        else []) := by
  have hadm : (s.m_allowMulti || (evictForDial s.m_peers (peerKey dest port)).1.empty) =
      policyAdmits (s.m_peers.erase (peerKey dest port)).size s.m_allowMulti := by
    rw [evictForDial_table]
    have he := QMap.empty_iff_size (s.m_peers.erase (peerKey dest port))
    unfold policyAdmits
    cases s.m_allowMulti <;> cases hm : (s.m_peers.erase (peerKey dest port)).empty <;>
      simp_all
  simp only [PeerLink.connectToHost, hadm]
  split <;> simp

theorem newConnection_effects (KEYS : List String) (s : PeerLink) (sock : TcpSocket) :
    (PeerLink.newConnection KEYS s sock).2 =
      (evictForAccept s.m_peers (peerKey sock.peerAddress sock.peerPort)).2 ++
        (if policyAdmits (s.m_peers.erase (peerKey sock.peerAddress sock.peerPort)).size
            s.m_allowMulti then
          wireInbound KEYS sock.ptr ++ [Effect.emitConnected sock.peerAddress sock.peerPort]
        else [Effect.disconnectFromHost sock.ptr, Effect.deleteLater sock.ptr]) := by
  have hadm : (!s.m_allowMulti && !(evictForAccept s.m_peers
        (peerKey sock.peerAddress sock.peerPort)).1.empty) =
      !policyAdmits (s.m_peers.erase (peerKey sock.peerAddress sock.peerPort)).size
        s.m_allowMulti := by
    rw [evictForAccept_table]
    have he := QMap.empty_iff_size (s.m_peers.erase (peerKey sock.peerAddress sock.peerPort))
    unfold policyAdmits
    cases s.m_allowMulti <;>
      cases hm : (s.m_peers.erase (peerKey sock.peerAddress sock.peerPort)).empty <;>
      simp_all
  simp only [PeerLink.newConnection, hadm]
  cases hp : policyAdmits (s.m_peers.erase (peerKey sock.peerAddress sock.peerPort)).size
    s.m_allowMulti <;> simp

theorem unwireAll_mem_evictForDial (peers : QMap) (key : String) (q : TcpSocketPtr)
    (h : Effect.unwireAll q ∈ (evictForDial peers key).2) : peers.find key = some q := by
  unfold evictForDial at h
  cases hf : peers.find key with
  | none => simp [hf] at h
  | some old =>
    simp [hf] at h
    rw [h]

theorem unwireAll_mem_evictForAccept (peers : QMap) (key : String) (q : TcpSocketPtr)
    (h : Effect.unwireAll q ∈ (evictForAccept peers key).2) : peers.find key = some q := by
  unfold evictForAccept at h
  cases hf : peers.find key with
  | none => simp [hf] at h
  | some old =>
    simp [hf] at h
    rw [h]

theorem unwireAll_mem_connectToHost (KEYS : List String) (s : PeerLink) (dest : QHostAddress)
    (port : quint16) (fresh q : TcpSocketPtr)
    (h : Effect.unwireAll q ∈ (PeerLink.connectToHost KEYS s dest port fresh).2) :
    s.m_peers.find (peerKey dest port) = some q := by
  rw [connectToHost_effects] at h
  rcases List.mem_append.mp h with h | h
  · exact unwireAll_mem_evictForDial _ _ _ h
  · split at h
    · simp [wireOutbound] at h
    · simp at h

theorem unwireAll_mem_newConnection (KEYS : List String) (s : PeerLink) (sock : TcpSocket)
    (q : TcpSocketPtr) (h : Effect.unwireAll q ∈ (PeerLink.newConnection KEYS s sock).2) :
    s.m_peers.find (peerKey sock.peerAddress sock.peerPort) = some q := by
  rw [newConnection_effects] at h
  rcases List.mem_append.mp h with h | h
  · exact unwireAll_mem_evictForAccept _ _ _ h
  · split at h
    · simp [wireInbound] at h
    · simp at h

theorem wired_by_connectToHost (KEYS : List String) (s : PeerLink) (dest : QHostAddress)
    (port : quint16) (fresh : TcpSocketPtr) (w : List Connection) (sig : SocketSignal)
    (r : Receiver)
    (hpol : policyAdmits (s.m_peers.erase (peerKey dest port)).size s.m_allowMulti = true)
    (hwire : Effect.wire fresh sig r ∈ wireOutbound KEYS fresh) :
    (fresh, sig, r) ∈ connectionsAfter w (PeerLink.connectToHost KEYS s dest port fresh).2 := by
  rw [connectToHost_effects, connectionsAfter_append]
  simp only [hpol, if_true]
  apply mem_connectionsAfter_of_wire
  · simp only [List.mem_append]
    exact Or.inl (Or.inr hwire)
  · intro q hq
    simp [wireOutbound] at hq

theorem wired_by_newConnection (KEYS : List String) (s : PeerLink) (sock : TcpSocket)
    (w : List Connection) (sig : SocketSignal) (r : Receiver)
    (hpol : policyAdmits (s.m_peers.erase (peerKey sock.peerAddress sock.peerPort)).size
      s.m_allowMulti = true)
    (hwire : Effect.wire sock.ptr sig r ∈ wireInbound KEYS sock.ptr) :
    (sock.ptr, sig, r) ∈ connectionsAfter w (PeerLink.newConnection KEYS s sock).2 := by
  rw [newConnection_effects, connectionsAfter_append]
  simp only [hpol, if_true]
  apply mem_connectionsAfter_of_wire
  · simp only [List.mem_append]
    exact Or.inl hwire
  · intro q hq
    simp [wireInbound] at hq

theorem subscribed_by_connectToHost (KEYS : List String) (s : PeerLink) (dest : QHostAddress)
    (port : quint16) (fresh : TcpSocketPtr) (w : List Connection)
    (hpol : policyAdmits (s.m_peers.erase (peerKey dest port)).size s.m_allowMulti = true) :
    Subscribed KEYS (connectionsAfter w (PeerLink.connectToHost KEYS s dest port fresh).2)
      fresh := by
  refine ⟨?_, ?_, ?_⟩
  · intro k hk
    apply wired_by_connectToHost KEYS s dest port fresh w _ _ hpol
    simp only [wireOutbound, List.mem_append, List.mem_map]
    exact Or.inl ⟨k, hk, rfl⟩
  · apply wired_by_connectToHost KEYS s dest port fresh w _ _ hpol
    simp [wireOutbound]
  · apply wired_by_connectToHost KEYS s dest port fresh w _ _ hpol
    simp [wireOutbound]

theorem subscribed_by_newConnection (KEYS : List String) (s : PeerLink) (sock : TcpSocket)
    (w : List Connection)
    (hpol : policyAdmits (s.m_peers.erase (peerKey sock.peerAddress sock.peerPort)).size
      s.m_allowMulti = true) :
    Subscribed KEYS (connectionsAfter w (PeerLink.newConnection KEYS s sock).2) sock.ptr := by
  refine ⟨?_, ?_, ?_⟩
  · intro k hk
    apply wired_by_newConnection KEYS s sock w _ _ hpol
    simp only [wireInbound, List.mem_append, List.mem_map]
    exact Or.inl ⟨k, hk, rfl⟩
  · apply wired_by_newConnection KEYS s sock w _ _ hpol
    simp [wireInbound]
  · apply wired_by_newConnection KEYS s sock w _ _ hpol
    simp [wireInbound]

theorem subscribed_kept (KEYS : List String) (w : List Connection) (effects : List Effect)
    (p : TcpSocketPtr) (h : Subscribed KEYS w p)
    (hno : ∀ q, Effect.unwireAll q ∈ effects → q ≠ p) :
    Subscribed KEYS (connectionsAfter w effects) p :=
  ⟨fun k hk => mem_connectionsAfter_of_mem effects w _ (h.1 k hk) hno,
   mem_connectionsAfter_of_mem effects w _ h.2.1 hno,
   mem_connectionsAfter_of_mem effects w _ h.2.2 hno⟩

theorem connectionsAfter_close (w : List Connection) (s : PeerLink) :
    connectionsAfter w s.close.2 = w := by
  apply connectionsAfter_unchanged
  intro e he
  simp only [PeerLink.close, List.mem_append, List.mem_map] at he
  rcases he with ⟨p, _, rfl⟩ | he
  · simp
  · split at he
    · simp at he; rw [he]; simp
    · simp at he

theorem connectionsAfter_closeOne (w : List Connection) (s : PeerLink) (a : QHostAddress)
    (p : quint16) : connectionsAfter w (s.closeOne a p).2 = w := by
  apply connectionsAfter_unchanged
  intro e he
  unfold PeerLink.closeOne at he
  cases h : s.m_peers.find (peerKey a p) with
  | none => simp [h] at he
  | some v =>
    simp [h] at he
    rcases he with rfl | rfl <;> simp

theorem connectionsAfter_disconnected (w : List Connection) (s : PeerLink)
    (sender : Option TcpSocket) : connectionsAfter w (s.disconnected sender).2 = w := by
  apply connectionsAfter_unchanged
  intro e2 he
  unfold PeerLink.disconnected at he
  cases sender with
  | none => simp at he
  | some socket =>
    simp only at he
    cases h : s.m_peers.find (peerKey socket.peerAddress socket.peerPort) with
    | none =>
      simp [h] at he
      rw [he]; simp
    | some v =>
      simp [h] at he
      rcases he with rfl | rfl <;> simp

theorem connectionsAfter_handle (w : List Connection) (s : PeerLink)
    (sender : Option TcpSocket) (e : SocketError) :
    connectionsAfter w (s.handle sender e).2 = w := by
  apply connectionsAfter_unchanged
  intro e2 he
  unfold PeerLink.handle at he
  cases sender with
  | none =>
    simp at he
    rw [he]; simp
  | some socket =>
    simp only at he
    cases h : s.m_peers.find (peerKey socket.peerAddress socket.peerPort) with
    | none =>
      simp [h] at he
      rcases he with rfl | rfl <;> simp
    | some v =>
      simp [h] at he
      rcases he with rfl | rfl <;> simp

theorem connectionsAfter_connected (w : List Connection) (s : PeerLink)
    (sender : Option TcpSocket) : connectionsAfter w (s.connected sender).2 = w := by
  apply connectionsAfter_unchanged
  intro e2 he
  unfold PeerLink.connected at he
  cases sender with
  | none => simp at he
  | some socket =>
    simp only at he
    cases h : s.m_peers.find (peerKey socket.peerAddress socket.peerPort) with
    | none => simp [h] at he
    | some v =>
      simp [h] at he
      rw [he]; simp

theorem connectionsAfter_transmit (w : List Connection) (s : PeerLink) (data : DataPackage) :
    connectionsAfter w (s.transmit data).2 = w := by
  apply connectionsAfter_unchanged
  intro e he
  simp only [PeerLink.transmit, List.mem_map] at he
  obtain ⟨p, _, rfl⟩ := he
  simp

theorem connectionsAfter_listen (w : List Connection) (s : PeerLink) (l : Bool)
    (a : QHostAddress) (p : quint16) : connectionsAfter w (s.listen l a p).2 = w := by
  apply connectionsAfter_unchanged
  intro e he
  cases l <;> simp [PeerLink.listen] at he
  · rw [he]; simp
  · rcases he with rfl | rfl <;> simp

theorem handle_eq (s : PeerLink) (socket : TcpSocket) (e : SocketError) :
    s.handle (some socket) e =
      ({ s with m_peers := s.m_peers.erase (peerKey socket.peerAddress socket.peerPort) },
        [Effect.deleteLater socket.ptr, Effect.emitError e]) := by
  unfold PeerLink.handle
  cases h : s.m_peers.find (peerKey socket.peerAddress socket.peerPort) with
  | none => simp [h, QMap.erase_of_find_none _ _ h]
  | some v => simp [h]

theorem disconnected_table (s : PeerLink) (socket : TcpSocket) :
    (s.disconnected (some socket)).1.m_peers =
      s.m_peers.erase (peerKey socket.peerAddress socket.peerPort) := by
  unfold PeerLink.disconnected
  cases h : s.m_peers.find (peerKey socket.peerAddress socket.peerPort) with
  | none => simp [h, QMap.erase_of_find_none _ _ h]
  | some v => simp [h]

theorem closeOne_table (s : PeerLink) (a : QHostAddress) (p : quint16) :
    (s.closeOne a p).1.m_peers = s.m_peers.erase (peerKey a p) := by
  unfold PeerLink.closeOne
  cases h : s.m_peers.find (peerKey a p) with
  | none => simp [h, QMap.erase_of_find_none _ _ h]
  | some v => simp [h]

theorem tableSubscribed_erase (KEYS : List String) (s : PeerLink) (w : List Connection)
    (m : QMap) (k : String) (h : TableSubscribed KEYS s w) (hm : m = s.m_peers.erase k) :
    m.values.Nodup ∧ ∀ x p, m.find x = some p → Subscribed KEYS w p := by
  subst hm
  refine ⟨h.1.sublist (QMap.values_erase_sublist _ _), ?_⟩
  intro x p hx
  exact h.2 x p (QMap.find_of_find_erase _ _ _ _ hx).2

theorem tableSubscribed_replace (KEYS : List String) (s : PeerLink) (w : List Connection)
    (effects : List Effect) (k : String) (v : TcpSocketPtr) (b : Bool)
    (h : TableSubscribed KEYS s w) (hv : v ∉ s.m_peers.values)
    (hun : ∀ q, Effect.unwireAll q ∈ effects → s.m_peers.find k = some q)
    (hnew : b = true → Subscribed KEYS (connectionsAfter w effects) v) :
    (if b = true then (s.m_peers.erase k).insert k v else s.m_peers.erase k).values.Nodup ∧
    ∀ x p, (if b = true then (s.m_peers.erase k).insert k v else s.m_peers.erase k).find x
        = some p → Subscribed KEYS (connectionsAfter w effects) p := by
  have hkeep : ∀ x p, x ≠ k → s.m_peers.find x = some p →
      Subscribed KEYS (connectionsAfter w effects) p := by
    intro x p hx hf
    apply subscribed_kept KEYS w effects p (h.2 x p hf)
    intro q hq
    exact (QMap.ne_of_nodup_values s.m_peers k x q p h.1 (hun q hq) hf hx).symm
  cases b
  · simp only [Bool.false_eq_true, if_false]
    refine ⟨h.1.sublist (QMap.values_erase_sublist _ _), ?_⟩
    intro x p hx
    obtain ⟨hne, hf⟩ := QMap.find_of_find_erase _ _ _ _ hx
    exact hkeep x p hne hf
  · simp only [if_true]
    refine ⟨QMap.values_insert_erase_nodup _ _ _ h.1 hv, ?_⟩
    intro x p hx
    by_cases hxk : x = k
    · subst hxk
      rw [QMap.find_insert_self] at hx
      rw [← Option.some.inj hx]
      exact hnew rfl
    · rw [QMap.find_insert_ne _ _ hxk] at hx
      obtain ⟨hne, hf⟩ := QMap.find_of_find_erase _ _ _ _ hx
      exact hkeep x p hne hf

theorem tableSubscribed_step (KEYS : List String) (s : PeerLink) (w : List Connection)
    (op : Op) (h : TableSubscribed KEYS s w) (hfresh : freshIn s op = true) :
    TableSubscribed KEYS (step KEYS s op).1 (connectionsAfter w (step KEYS s op).2) := by
  cases op with
  | close =>
    simp only [step]
    rw [connectionsAfter_close]
    refine ⟨by simp [PeerLink.close, QMap.clear, QMap.values], ?_⟩
    intro k p hk
    simp [PeerLink.close, QMap.clear, QMap.find, findEntry] at hk
  | closeOne a p =>
    simp only [step]
    rw [connectionsAfter_closeOne]
    exact tableSubscribed_erase KEYS s w _ _ h (closeOne_table s a p)
  | listen l a p =>
    simp only [step]
    rw [connectionsAfter_listen]
    exact h
  | connectToHost d p fresh =>
    simp only [step]
    unfold TableSubscribed
    rw [connectToHost_table]
    have hv : fresh ∉ s.m_peers.values := by
      simpa [freshIn] using hfresh
    exact tableSubscribed_replace KEYS s w _ (peerKey d p) fresh _ h hv
      (fun q hq => unwireAll_mem_connectToHost KEYS s d p fresh q hq)
      (fun hb => subscribed_by_connectToHost KEYS s d p fresh w hb)
  | setAllowMulti b =>
    exact h
  | connected c =>
    simp only [step]
    rw [connectionsAfter_connected]
    have : (s.connected c).1 = s := by
      unfold PeerLink.connected
      cases c with
      | none => rfl
      | some socket =>
        simp only
        cases hf : s.m_peers.find (peerKey socket.peerAddress socket.peerPort) <;> rfl
    rw [this]
    exact h
  | disconnected c =>
    simp only [step]
    rw [connectionsAfter_disconnected]
    cases c with
    | none => exact h
    | some socket =>
      exact tableSubscribed_erase KEYS s w _ _ h (disconnected_table s socket)
  | newConnection c =>
    simp only [step]
    unfold TableSubscribed
    rw [newConnection_table]
    have hv : c.ptr ∉ s.m_peers.values := by
      simpa [freshIn] using hfresh
    exact tableSubscribed_replace KEYS s w _ (peerKey c.peerAddress c.peerPort) c.ptr _ h hv
      (fun q hq => unwireAll_mem_newConnection KEYS s c q hq)
      (fun hb => subscribed_by_newConnection KEYS s c w hb)
  | handle c e =>
    simp only [step]
    rw [connectionsAfter_handle]
    cases c with
    | none => exact h
    | some socket =>
      exact tableSubscribed_erase KEYS s w _ (peerKey socket.peerAddress socket.peerPort) h
        (by rw [handle_eq])
  | transmit d =>
    simp only [step]
    rw [connectionsAfter_transmit]
    exact h

theorem tableSubscribed_run (KEYS : List String) (ops : List Op) :
    ∀ (s : PeerLink) (w : List Connection), TableSubscribed KEYS s w →
      FreshSockets KEYS s ops →
      TableSubscribed KEYS (run KEYS s ops).1 (connectionsAfter w (run KEYS s ops).2) := by
  induction ops with
  | nil => intro s w h _; exact h
  | cons op ops ih =>
    intro s w h hf
    obtain ⟨hf1, hf2⟩ := hf
    simp only [run]
    rw [connectionsAfter_append]
    exact ih _ _ (tableSubscribed_step KEYS s w op h hf1) hf2

theorem tableSubscribed_ctor (KEYS : List String) (server : Nat) :
    TableSubscribed KEYS (PeerLink.ctor server) [] := by
  refine ⟨by simp [PeerLink.ctor, QMap.clear, QMap.values], ?_⟩
  intro k p hk
  simp [PeerLink.ctor, QMap.clear, QMap.find, findEntry] at hk

/-! ## Claims -/

/-- C1 (counterexample): from the constructed object, enabling multi mode, dialling two
peers and then clearing the flag leaves `allowMulti = false` with two entries in
the peer table. -/
theorem single_slot_fails_after_flag_reset :
    (run ["Msg"] (PeerLink.ctor 1)
        [Op.setAllowMulti true, Op.connectToHost ⟨"10.0.0.1"⟩ 80 11,
         Op.connectToHost ⟨"10.0.0.2"⟩ 80 12, Op.setAllowMulti false]).1.m_allowMulti = false ∧
    (run ["Msg"] (PeerLink.ctor 1)
        [Op.setAllowMulti true, Op.connectToHost ⟨"10.0.0.1"⟩ 80 11,
         Op.connectToHost ⟨"10.0.0.2"⟩ 80 12, Op.setAllowMulti false]).1.m_peers.size = 2 := by
  decide

/-- C1 (amended): for every sequence of operations and events from the constructed
object in which each `setAllowMulti(false)` is called while the peer table holds at
most one entry, after every operation (every prefix of the sequence): if `allowMulti`
is false then the peer table holds at most one entry. -/
theorem single_slot_after_every_operation (KEYS : List String) (server : Nat) (ops : List Op)
    (h : ClearsFlagOnSmallTable KEYS (PeerLink.ctor server) ops) (n : Nat) :
    (run KEYS (PeerLink.ctor server) (ops.take n)).1.m_allowMulti = false →
      (run KEYS (PeerLink.ctor server) (ops.take n)).1.m_peers.size ≤ 1 := by
  have h0 : SingleSlot (PeerLink.ctor server) := by
    intro _
    simp [PeerLink.ctor, QMap.clear, QMap.size]
  exact singleSlot_run KEYS (ops.take n) _ h0 (clearsFlag_take KEYS ops _ n h)

/-- C1 (witness): a run that enables multi mode, registers two peers, closes one,
clears the flag and then receives an inbound connection ends with the flag off and
one entry. -/
theorem single_slot_after_every_operation_witness :
    ClearsFlagOnSmallTable ["Msg"] (PeerLink.ctor 1)
        [Op.setAllowMulti true, Op.connectToHost ⟨"10.0.0.1"⟩ 80 11,
         Op.connectToHost ⟨"10.0.0.2"⟩ 80 12, Op.closeOne ⟨"10.0.0.1"⟩ 80,
         Op.setAllowMulti false, Op.newConnection ⟨13, ⟨"10.0.0.3"⟩, 4000⟩] ∧
    (run ["Msg"] (PeerLink.ctor 1)
        (List.take 6 [Op.setAllowMulti true, Op.connectToHost ⟨"10.0.0.1"⟩ 80 11,
         Op.connectToHost ⟨"10.0.0.2"⟩ 80 12, Op.closeOne ⟨"10.0.0.1"⟩ 80,
         Op.setAllowMulti false,
         Op.newConnection ⟨13, ⟨"10.0.0.3"⟩, 4000⟩])).1.m_allowMulti = false ∧
    (run ["Msg"] (PeerLink.ctor 1)
        (List.take 6 [Op.setAllowMulti true, Op.connectToHost ⟨"10.0.0.1"⟩ 80 11,
         Op.connectToHost ⟨"10.0.0.2"⟩ 80 12, Op.closeOne ⟨"10.0.0.1"⟩ 80,
         Op.setAllowMulti false, Op.newConnection ⟨13, ⟨"10.0.0.3"⟩, 4000⟩])).1.m_peers.size ≤ 1 :=
  ⟨by decide, by decide,
   single_slot_after_every_operation ["Msg"] 1 _ (by decide) 6 (by decide)⟩

/-- C2 (counterexample): in single mode, after `connectToHost` of 10.0.0.1:80 a
`connectToHost` of 10.0.0.2:80 issues no call at all; the table still holds the first
peer and holds nothing under the second key. -/
theorem second_dial_does_not_replace_first :
    (run ["Msg"] (PeerLink.ctor 1)
        [Op.connectToHost ⟨"10.0.0.1"⟩ 80 11,
         Op.connectToHost ⟨"10.0.0.2"⟩ 80 12]).1.m_peers.entries = [("10.0.0.1:80", 11)] ∧
    (run ["Msg"] (PeerLink.ctor 1)
        [Op.connectToHost ⟨"10.0.0.1"⟩ 80 11,
         Op.connectToHost ⟨"10.0.0.2"⟩ 80 12]).1.m_peers.find (peerKey ⟨"10.0.0.2"⟩ 80) = none ∧
    (PeerLink.connectToHost ["Msg"]
        (PeerLink.connectToHost ["Msg"] (PeerLink.ctor 1) ⟨"10.0.0.1"⟩ 80 11).1
        ⟨"10.0.0.2"⟩ 80 12).2 = [] := by
  decide

/-- C2 (amended): with `allowMulti = false` and an empty peer table, for every two
distinct endpoints P1 and P2, `connectToHost(P1)` registers the new channel under P1,
and a following `connectToHost(P2)` is dropped: it issues no call (P1's channel is
neither evicted nor closed, no channel is created for P2) and leaves the object
unchanged, the peer table holding exactly the one key P1. -/
theorem second_dial_is_dropped (KEYS : List String) (s : PeerLink)
    (a1 a2 : QHostAddress) (p1 p2 : quint16) (c1 c2 : TcpSocketPtr)
    (hflag : s.m_allowMulti = false) (hempty : s.m_peers = QMap.clear)
    (hne : (a1, p1) ≠ (a2, p2)) :
    (PeerLink.connectToHost KEYS s a1 p1 c1).1.m_peers.entries = [(peerKey a1 p1, c1)] ∧
    PeerLink.connectToHost KEYS (PeerLink.connectToHost KEYS s a1 p1 c1).1 a2 p2 c2 =
      ((PeerLink.connectToHost KEYS s a1 p1 c1).1, []) := by
  have hk : peerKey a2 p2 ≠ peerKey a1 p1 := peerKey_ne (Ne.symm hne)
  obtain ⟨f, srv, peers⟩ := s
  simp only at hflag hempty
  subst hflag hempty
  have h1 : (PeerLink.connectToHost KEYS ⟨false, srv, QMap.clear⟩ a1 p1 c1).1 =
      ⟨false, srv, QMap.clear.insert (peerKey a1 p1) c1⟩ := by
    simp [PeerLink.connectToHost, evictForDial, QMap.find, QMap.clear, findEntry, QMap.empty]
  rw [h1]
  refine ⟨by simp [QMap.insert, QMap.clear, insertEntry], ?_⟩
  simp [PeerLink.connectToHost, evictForDial, QMap.find, QMap.clear, QMap.insert, insertEntry,
    findEntry, QMap.empty, hk]

/-- C2 (witness): the amended scenario at 10.0.0.1:80 followed by 10.0.0.2:80. -/
theorem second_dial_is_dropped_witness :
    (PeerLink.connectToHost ["Msg"] (PeerLink.ctor 1) ⟨"10.0.0.1"⟩ 80 11).1.m_peers.entries =
      [("10.0.0.1:80", 11)] ∧
    PeerLink.connectToHost ["Msg"]
        (PeerLink.connectToHost ["Msg"] (PeerLink.ctor 1) ⟨"10.0.0.1"⟩ 80 11).1 ⟨"10.0.0.2"⟩ 80 12 =
      ((PeerLink.connectToHost ["Msg"] (PeerLink.ctor 1) ⟨"10.0.0.1"⟩ 80 11).1, []) :=
  second_dial_is_dropped ["Msg"] (PeerLink.ctor 1) ⟨"10.0.0.1"⟩ ⟨"10.0.0.2"⟩ 80 80 11 12
    rfl rfl (by decide)

/-- C3: in `connectToHost` and in `newConnection` the new channel is registered under
its key exactly when the policy admits the size the peer table has once a same-key
entry is erased, the resulting table being that erased table with or without the new
entry; and the condition written in either function equals the policy. -/
theorem admission_policy_decides_registration (KEYS : List String) (s : PeerLink) :
    (∀ (dest : QHostAddress) (port : quint16) (fresh : TcpSocketPtr),
      ((PeerLink.connectToHost KEYS s dest port fresh).1.m_peers.find (peerKey dest port)
          = some fresh ↔
        policyAdmits (s.m_peers.erase (peerKey dest port)).size s.m_allowMulti = true) ∧
      (PeerLink.connectToHost KEYS s dest port fresh).1.m_peers =
        (if policyAdmits (s.m_peers.erase (peerKey dest port)).size s.m_allowMulti then
          (s.m_peers.erase (peerKey dest port)).insert (peerKey dest port) fresh
        else s.m_peers.erase (peerKey dest port))) ∧
    (∀ (sock : TcpSocket),
      ((PeerLink.newConnection KEYS s sock).1.m_peers.find
            (peerKey sock.peerAddress sock.peerPort) = some sock.ptr ↔
        policyAdmits (s.m_peers.erase (peerKey sock.peerAddress sock.peerPort)).size
          s.m_allowMulti = true) ∧
      (PeerLink.newConnection KEYS s sock).1.m_peers =
        (if policyAdmits (s.m_peers.erase (peerKey sock.peerAddress sock.peerPort)).size
            s.m_allowMulti then
          (s.m_peers.erase (peerKey sock.peerAddress sock.peerPort)).insert
            (peerKey sock.peerAddress sock.peerPort) sock.ptr
        else s.m_peers.erase (peerKey sock.peerAddress sock.peerPort))) ∧
    (∀ (m : QMap),
      (s.m_allowMulti || m.empty) = policyAdmits m.size s.m_allowMulti ∧
      (!(!s.m_allowMulti && !m.empty)) = policyAdmits m.size s.m_allowMulti) := by
  refine ⟨?_, ?_, ?_⟩
  · intro dest port fresh
    refine ⟨?_, connectToHost_table KEYS s dest port fresh⟩
    rw [connectToHost_table]
    split
    · rename_i h
      simp [h, QMap.find_insert_self]
    · rename_i h
      simp [h, QMap.find_erase_self]
  · intro sock
    refine ⟨?_, newConnection_table KEYS s sock⟩
    rw [newConnection_table]
    split
    · rename_i h
      simp [h, QMap.find_insert_self]
    · rename_i h
      simp [h, QMap.find_erase_self]
  · intro m
    have he := QMap.empty_iff_size m
    unfold policyAdmits
    cases s.m_allowMulti <;> cases hm : m.empty <;> simp_all

/-- C4: with `allowMulti = false` and a peer table holding exactly one entry P1, an
inbound channel whose endpoint differs from P1 is asked to disconnect and released,
these two calls being all `newConnection` issues; the channel is not inserted, no
`connected` signal is emitted, and the object (the table with P1 and its handle) is
as before the call. -/
theorem inbound_rejected_when_slot_taken (KEYS : List String) (s : PeerLink)
    (a1 : QHostAddress) (p1 : quint16) (held : TcpSocketPtr) (sock : TcpSocket)
    (hflag : s.m_allowMulti = false)
    (htable : s.m_peers.entries = [(peerKey a1 p1, held)])
    (hne : (sock.peerAddress, sock.peerPort) ≠ (a1, p1)) :
    PeerLink.newConnection KEYS s sock =
      (s, [Effect.disconnectFromHost sock.ptr, Effect.deleteLater sock.ptr]) ∧
    (PeerLink.newConnection KEYS s sock).1.m_peers.find
      (peerKey sock.peerAddress sock.peerPort) = none ∧
    emittedConnected (PeerLink.newConnection KEYS s sock).2 = [] := by
  have hk : peerKey sock.peerAddress sock.peerPort ≠ peerKey a1 p1 := peerKey_ne hne
  have hfind : s.m_peers.find (peerKey sock.peerAddress sock.peerPort) = none := by
    simp [QMap.find, htable, findEntry, hk]
  have hnonempty : s.m_peers.empty = false := by
    simp [QMap.empty, htable]
  have hcall : PeerLink.newConnection KEYS s sock =
      (s, [Effect.disconnectFromHost sock.ptr, Effect.deleteLater sock.ptr]) := by
    simp only [PeerLink.newConnection, evictForAccept, hfind, hflag, hnonempty]
    cases s
    simp_all
  rw [hcall]
  exact ⟨rfl, hfind, rfl⟩

/-- C4 (witness): the table holds 10.0.0.1:80 and 10.0.0.2:4000 comes in. -/
theorem inbound_rejected_when_slot_taken_witness :
    PeerLink.newConnection ["Msg"]
        (PeerLink.connectToHost ["Msg"] (PeerLink.ctor 1) ⟨"10.0.0.1"⟩ 80 11).1
        ⟨12, ⟨"10.0.0.2"⟩, 4000⟩ =
      ((PeerLink.connectToHost ["Msg"] (PeerLink.ctor 1) ⟨"10.0.0.1"⟩ 80 11).1,
        [Effect.disconnectFromHost 12, Effect.deleteLater 12]) :=
  (inbound_rejected_when_slot_taken ["Msg"]
    (PeerLink.connectToHost ["Msg"] (PeerLink.ctor 1) ⟨"10.0.0.1"⟩ 80 11).1
    ⟨"10.0.0.1"⟩ 80 11 ⟨12, ⟨"10.0.0.2"⟩, 4000⟩ (by decide) (by decide) (by decide)).1

/-- C5: when the peer table holds `old` under the key of an inbound channel,
`newConnection` erases that entry, unwires `old`, asks it to disconnect and releases
it, then decides admission on the size of the table after the erase; with
`allowMulti = false` and the table being just that entry, the table becomes the one
entry for the new channel and `connected` is emitted once, for its endpoint. -/
theorem inbound_replaces_same_key (KEYS : List String) (s : PeerLink) (sock : TcpSocket)
    (old : TcpSocketPtr)
    (hold : s.m_peers.find (peerKey sock.peerAddress sock.peerPort) = some old) :
    (s.m_peers.erase (peerKey sock.peerAddress sock.peerPort)).find
        (peerKey sock.peerAddress sock.peerPort) = none ∧
    PeerLink.newConnection KEYS s sock =
      (if policyAdmits (s.m_peers.erase (peerKey sock.peerAddress sock.peerPort)).size
          s.m_allowMulti then
        ({ s with m_peers := ((s.m_peers.erase (peerKey sock.peerAddress sock.peerPort)).insert
              (peerKey sock.peerAddress sock.peerPort) sock.ptr) },
          [Effect.unwireAll old, Effect.disconnectFromHost old, Effect.deleteLater old] ++
            wireInbound KEYS sock.ptr ++ [Effect.emitConnected sock.peerAddress sock.peerPort])
      else
        ({ s with m_peers := s.m_peers.erase (peerKey sock.peerAddress sock.peerPort) },
          [Effect.unwireAll old, Effect.disconnectFromHost old, Effect.deleteLater old,
           Effect.disconnectFromHost sock.ptr, Effect.deleteLater sock.ptr])) ∧
    (s.m_allowMulti = false →
      s.m_peers.entries = [(peerKey sock.peerAddress sock.peerPort, old)] →
      (PeerLink.newConnection KEYS s sock).1.m_peers.entries =
        [(peerKey sock.peerAddress sock.peerPort, sock.ptr)] ∧
      emittedConnected (PeerLink.newConnection KEYS s sock).2 =
        [(sock.peerAddress, sock.peerPort)]) := by
  have hshape : PeerLink.newConnection KEYS s sock =
      (if policyAdmits (s.m_peers.erase (peerKey sock.peerAddress sock.peerPort)).size
          s.m_allowMulti then
        ({ s with m_peers := ((s.m_peers.erase (peerKey sock.peerAddress sock.peerPort)).insert
              (peerKey sock.peerAddress sock.peerPort) sock.ptr) },
          [Effect.unwireAll old, Effect.disconnectFromHost old, Effect.deleteLater old] ++
            wireInbound KEYS sock.ptr ++ [Effect.emitConnected sock.peerAddress sock.peerPort])
      else
        ({ s with m_peers := s.m_peers.erase (peerKey sock.peerAddress sock.peerPort) },
          [Effect.unwireAll old, Effect.disconnectFromHost old, Effect.deleteLater old,
           Effect.disconnectFromHost sock.ptr, Effect.deleteLater sock.ptr])) := by
    have he := QMap.empty_iff_size (s.m_peers.erase (peerKey sock.peerAddress sock.peerPort))
    unfold PeerLink.newConnection policyAdmits
    simp only [evictForAccept, hold]
    cases hm : s.m_allowMulti
    · by_cases h : (s.m_peers.erase (peerKey sock.peerAddress sock.peerPort)).empty = true
      · simp [h, he.mp h]
      · have h3 : ¬ (s.m_peers.erase (peerKey sock.peerAddress sock.peerPort)).size = 0 :=
          fun hh => h (he.mpr hh)
        simp [h, h3]
    · simp
  refine ⟨QMap.find_erase_self _ _, hshape, ?_⟩
  intro hflag htable
  have herase : (s.m_peers.erase (peerKey sock.peerAddress sock.peerPort)).entries = [] := by
    simp [QMap.erase, htable, eraseEntry]
  have hsize : (s.m_peers.erase (peerKey sock.peerAddress sock.peerPort)).size = 0 := by
    simp [QMap.size, herase]
  rw [hshape]
  simp only [policyAdmits, hsize, hflag, Bool.false_or, beq_self_eq_true, if_true]
  refine ⟨by simp [QMap.insert, herase, insertEntry], ?_⟩
  unfold emittedConnected
  simp only [List.filterMap_append]
  have := emittedConnected_wireInbound KEYS sock.ptr
  unfold emittedConnected at this
  rw [this]
  rfl

/-- C5 (witness): a second inbound channel from 10.0.0.2:4000 replaces the first. -/
theorem inbound_replaces_same_key_witness :
    (PeerLink.newConnection ["Msg"]
        (PeerLink.newConnection ["Msg"] (PeerLink.ctor 1) ⟨11, ⟨"10.0.0.2"⟩, 4000⟩).1
        ⟨12, ⟨"10.0.0.2"⟩, 4000⟩).1.m_peers.entries = [("10.0.0.2:4000", 12)] ∧
    emittedConnected (PeerLink.newConnection ["Msg"]
        (PeerLink.newConnection ["Msg"] (PeerLink.ctor 1) ⟨11, ⟨"10.0.0.2"⟩, 4000⟩).1
        ⟨12, ⟨"10.0.0.2"⟩, 4000⟩).2 = [(⟨"10.0.0.2"⟩, 4000)] :=
  (inbound_replaces_same_key ["Msg"]
    (PeerLink.newConnection ["Msg"] (PeerLink.ctor 1) ⟨11, ⟨"10.0.0.2"⟩, 4000⟩).1
    ⟨12, ⟨"10.0.0.2"⟩, 4000⟩ 11 (by decide)).2.2 (by decide) (by decide)

/-- C7: `close(addr, port)` leaves the object with the peer table erased at that key
and nothing else changed: no entry under the key, the entry under every other key as it
was; when the key held a socket the calls issued are one `disconnectFromHost` then one
`deleteLater` on it, inside the call; when the key was absent the object is unchanged
and nothing is issued. -/
theorem closeOne_removes_only_that_peer (s : PeerLink) (peeraddr : QHostAddress)
    (peerport : quint16) :
    (s.closeOne peeraddr peerport).1 =
      { s with m_peers := s.m_peers.erase (peerKey peeraddr peerport) } ∧
    (s.closeOne peeraddr peerport).1.m_peers.find (peerKey peeraddr peerport) = none ∧
    (∀ k, k ≠ peerKey peeraddr peerport →
      (s.closeOne peeraddr peerport).1.m_peers.find k = s.m_peers.find k) ∧
    (∀ socket, s.m_peers.find (peerKey peeraddr peerport) = some socket →
      (s.closeOne peeraddr peerport).2 =
        [Effect.disconnectFromHost socket, Effect.deleteLater socket]) ∧
    (s.m_peers.find (peerKey peeraddr peerport) = none →
      s.closeOne peeraddr peerport = (s, [])) := by
  have hstate : (s.closeOne peeraddr peerport).1 =
      { s with m_peers := s.m_peers.erase (peerKey peeraddr peerport) } := by
    unfold PeerLink.closeOne
    cases h : s.m_peers.find (peerKey peeraddr peerport) with
    | none => simp [h, QMap.erase_of_find_none _ _ h]
    | some v => simp [h]
  refine ⟨hstate, ?_, ?_, ?_, ?_⟩
  · rw [hstate]; exact QMap.find_erase_self _ _
  · intro k hk; rw [hstate]; exact QMap.find_erase_ne _ hk
  · intro socket h
    simp [PeerLink.closeOne, h]
  · intro h
    simp [PeerLink.closeOne, h]

/-- C7 (witness): closing 10.0.0.1:80 of two registered peers. -/
theorem closeOne_removes_only_that_peer_witness :
    (PeerLink.closeOne
        (run ["Msg"] (PeerLink.ctor 1)
          [Op.setAllowMulti true, Op.connectToHost ⟨"10.0.0.1"⟩ 80 11,
           Op.connectToHost ⟨"10.0.0.2"⟩ 80 12]).1 ⟨"10.0.0.1"⟩ 80).2 =
      [Effect.disconnectFromHost 11, Effect.deleteLater 11] :=
  (closeOne_removes_only_that_peer
    (run ["Msg"] (PeerLink.ctor 1)
      [Op.setAllowMulti true, Op.connectToHost ⟨"10.0.0.1"⟩ 80 11,
       Op.connectToHost ⟨"10.0.0.2"⟩ 80 12]).1 ⟨"10.0.0.1"⟩ 80).2.2.2.1 11 (by decide)

/-- C8: `close()` on an object whose server pointer is set leaves the peer table empty
and `allowMulti` as it was; `deleteLater` is requested on a non-null pointer once per
entry holding it (once for each channel when the registered channels are distinct),
never on the null pointer nor on a pointer outside the table; the server is closed
once; nothing else is issued. -/
theorem close_releases_every_peer (s : PeerLink) (hserver : s.m_server ≠ 0) :
    s.close.1.m_peers.entries = [] ∧
    s.close.1.m_allowMulti = s.m_allowMulti ∧
    (∀ p, s.close.2.count (Effect.deleteLater p) =
      if p = 0 then 0 else s.m_peers.values.count p) ∧
    (s.m_peers.values.Nodup → ∀ p ∈ s.m_peers.values, p ≠ 0 →
      s.close.2.count (Effect.deleteLater p) = 1) ∧
    (∀ p, p ∉ s.m_peers.values → s.close.2.count (Effect.deleteLater p) = 0) ∧
    s.close.2.count Effect.serverClose = 1 ∧
    (∀ e ∈ s.close.2, e = Effect.serverClose ∨ ∃ p, e = Effect.deleteLater p) := by
  have hinj : Function.Injective Effect.deleteLater := fun a b h => by injection h
  have hcount : ∀ p, s.close.2.count (Effect.deleteLater p) =
      if p = 0 then 0 else s.m_peers.values.count p := by
    intro p
    simp only [PeerLink.close, hserver, ne_eq, not_false_eq_true, if_true, List.count_append]
    rw [count_map_nonnull Effect.deleteLater hinj]
    simp
  refine ⟨rfl, rfl, hcount, ?_, ?_, ?_, ?_⟩
  · intro hnd p hp hp0
    rw [hcount p]
    simp only [hp0, if_false]
    exact List.count_eq_one_of_mem hnd hp
  · intro p hp
    rw [hcount p]
    split
    · rfl
    · exact List.count_eq_zero_of_not_mem hp
  · simp only [PeerLink.close, hserver, ne_eq, not_false_eq_true, if_true, List.count_append]
    have : ((s.m_peers.values.filter (fun socket => socket ≠ 0)).map
        Effect.deleteLater).count Effect.serverClose = 0 := by
      apply List.count_eq_zero_of_not_mem
      simp
    rw [this]
    simp
  · intro e he
    simp only [PeerLink.close, hserver, ne_eq, not_false_eq_true, if_true, List.mem_append,
      List.mem_map, List.mem_singleton] at he
    rcases he with ⟨p, _, hp⟩ | he
    · exact Or.inr ⟨p, hp.symm⟩
    · exact Or.inl he

/-- C8 (witness): closing an object with two registered peers. -/
theorem close_releases_every_peer_witness :
    (PeerLink.close
        (run ["Msg"] (PeerLink.ctor 1)
          [Op.setAllowMulti true, Op.connectToHost ⟨"10.0.0.1"⟩ 80 11,
           Op.connectToHost ⟨"10.0.0.2"⟩ 80 12]).1).1.m_peers.entries = [] ∧
    (PeerLink.close
        (run ["Msg"] (PeerLink.ctor 1)
          [Op.setAllowMulti true, Op.connectToHost ⟨"10.0.0.1"⟩ 80 11,
           Op.connectToHost ⟨"10.0.0.2"⟩ 80 12]).1).2.count (Effect.deleteLater 12) = 1 :=
  ⟨(close_releases_every_peer
      (run ["Msg"] (PeerLink.ctor 1)
        [Op.setAllowMulti true, Op.connectToHost ⟨"10.0.0.1"⟩ 80 11,
         Op.connectToHost ⟨"10.0.0.2"⟩ 80 12]).1 (by decide)).1,
   (close_releases_every_peer
      (run ["Msg"] (PeerLink.ctor 1)
        [Op.setAllowMulti true, Op.connectToHost ⟨"10.0.0.1"⟩ 80 11,
         Op.connectToHost ⟨"10.0.0.2"⟩ 80 12]).1 (by decide)).2.2.2.1
      (by decide) 12 (by decide) (by decide)⟩

/-- C9: `transmit(data)` leaves the object unchanged; the calls it issues are one
write of `data` per entry of the peer table holding a non-null pointer, in table
order: every channel stored under some key is written to, every write goes to a
channel stored under some key, and a channel receives as many writes as entries hold
it. In every state reached from the constructed object by operations whose new and
accepted sockets are pointers not already in the table, each channel held receives
the data exactly once. -/
theorem transmit_writes_to_held_channels (KEYS : List String) :
    (∀ (s : PeerLink) (data : DataPackage),
      (s.transmit data).1 = s ∧
      (s.transmit data).2 =
        (s.m_peers.entries.filter (fun en => decide (en.2 ≠ 0))).map
          (fun en => Effect.write en.2 data) ∧
      (∀ k p, s.m_peers.find k = some p → p ≠ 0 →
        Effect.write p data ∈ (s.transmit data).2) ∧
      (∀ e ∈ (s.transmit data).2,
        ∃ k p, s.m_peers.find k = some p ∧ p ≠ 0 ∧ e = Effect.write p data) ∧
      (∀ p, p ≠ 0 → (s.transmit data).2.count (Effect.write p data) =
        (s.m_peers.entries.filter (fun en => decide (en.2 = p))).length)) ∧
    (∀ (server : Nat) (ops : List Op) (data : DataPackage) (k : String) (p : TcpSocketPtr),
      FreshSockets KEYS (PeerLink.ctor server) ops →
      (run KEYS (PeerLink.ctor server) ops).1.m_peers.find k = some p → p ≠ 0 →
      ((run KEYS (PeerLink.ctor server) ops).1.transmit data).2.count
        (Effect.write p data) = 1) := by
  have hinj : ∀ data : DataPackage,
      Function.Injective (fun socket => Effect.write socket data) :=
    fun data a b h => by injection h
  have hcount : ∀ (s : PeerLink) (data : DataPackage) (p : TcpSocketPtr), p ≠ 0 →
      (s.transmit data).2.count (Effect.write p data) = s.m_peers.values.count p := by
    intro s data p hp
    have := count_map_nonnull (fun socket => Effect.write socket data) (hinj data)
      s.m_peers.values p
    simp only [hp, if_false] at this
    exact this
  refine ⟨?_, ?_⟩
  · intro s data
    have hshape : (s.transmit data).2 =
        (s.m_peers.entries.filter (fun en => decide (en.2 ≠ 0))).map
          (fun en => Effect.write en.2 data) :=
      nonnull_values_eq_entries s.m_peers.entries (fun socket => Effect.write socket data)
    refine ⟨rfl, hshape, ?_, ?_, ?_⟩
    · intro k p hk hp
      rw [hshape]
      apply List.mem_map.mpr
      refine ⟨(k, p), ?_, rfl⟩
      simp only [List.mem_filter, decide_eq_true_eq]
      exact ⟨(QMap.find_iff_mem _ k p).mp hk, hp⟩
    · intro e he
      rw [hshape] at he
      obtain ⟨en, hen, rfl⟩ := List.mem_map.mp he
      simp only [List.mem_filter, decide_eq_true_eq] at hen
      exact ⟨en.1, en.2, (QMap.find_iff_mem _ en.1 en.2).mpr hen.1, hen.2, rfl⟩
    · intro p hp
      rw [hcount s data p hp]
      exact count_values_eq_entries p s.m_peers.entries
  · intro server ops data k p hfresh hk hp
    have hinv := tableSubscribed_run KEYS ops (PeerLink.ctor server) []
      (tableSubscribed_ctor KEYS server) hfresh
    rw [hcount _ data p hp]
    exact List.count_eq_one_of_mem hinv.1 (QMap.mem_values_of_find _ k p hk)

/-- C9 (witness): three peers registered, one closed; the data goes once to each of
the two sockets still held and not to the closed one. -/
theorem transmit_writes_to_held_channels_witness :
    ((run ["Msg"] (PeerLink.ctor 1)
        [Op.setAllowMulti true, Op.connectToHost ⟨"10.0.0.1"⟩ 80 11,
         Op.newConnection ⟨12, ⟨"10.0.0.2"⟩, 4000⟩,
         Op.closeOne ⟨"10.0.0.1"⟩ 80,
         Op.connectToHost ⟨"10.0.0.3"⟩ 80 13]).1.transmit ⟨"Msg", [1, 2, 3]⟩).2 =
      [Effect.write 12 ⟨"Msg", [1, 2, 3]⟩, Effect.write 13 ⟨"Msg", [1, 2, 3]⟩] ∧
    ((run ["Msg"] (PeerLink.ctor 1)
        [Op.setAllowMulti true, Op.connectToHost ⟨"10.0.0.1"⟩ 80 11,
         Op.newConnection ⟨12, ⟨"10.0.0.2"⟩, 4000⟩,
         Op.closeOne ⟨"10.0.0.1"⟩ 80,
         Op.connectToHost ⟨"10.0.0.3"⟩ 80 13]).1.transmit ⟨"Msg", [1, 2, 3]⟩).2.count
      (Effect.write 12 ⟨"Msg", [1, 2, 3]⟩) = 1 :=
  ⟨((transmit_writes_to_held_channels ["Msg"]).1
      (run ["Msg"] (PeerLink.ctor 1)
        [Op.setAllowMulti true, Op.connectToHost ⟨"10.0.0.1"⟩ 80 11,
         Op.newConnection ⟨12, ⟨"10.0.0.2"⟩, 4000⟩,
         Op.closeOne ⟨"10.0.0.1"⟩ 80,
         Op.connectToHost ⟨"10.0.0.3"⟩ 80 13]).1 ⟨"Msg", [1, 2, 3]⟩).2.1.trans (by decide),
   (transmit_writes_to_held_channels ["Msg"]).2 1
      [Op.setAllowMulti true, Op.connectToHost ⟨"10.0.0.1"⟩ 80 11,
       Op.newConnection ⟨12, ⟨"10.0.0.2"⟩, 4000⟩,
       Op.closeOne ⟨"10.0.0.1"⟩ 80,
       Op.connectToHost ⟨"10.0.0.3"⟩ 80 13] ⟨"Msg", [1, 2, 3]⟩ "10.0.0.2:4000" 12
      (by decide) (by decide) (by decide)⟩

/-- C10: with `allowMulti = true`, `connectToHost(P)` yields a table whose keys are
the old keys and P, the entry under every other key as it was, P mapped to the newly
created socket, on which the transport connect is started; and from the empty table
two dials to distinct endpoints give exactly the keys P1 and P2, mapped to the two new
sockets, and a following `transmit(msg)` writes `msg` to both and nothing else. -/
theorem multi_mode_dial_adds_peer (KEYS : List String) :
    (∀ (s : PeerLink) (dest : QHostAddress) (port : quint16) (fresh : TcpSocketPtr),
      s.m_allowMulti = true →
      (∀ k, k ∈ (PeerLink.connectToHost KEYS s dest port fresh).1.m_peers.keys ↔
        k = peerKey dest port ∨ k ∈ s.m_peers.keys) ∧
      (∀ k, k ≠ peerKey dest port →
        (PeerLink.connectToHost KEYS s dest port fresh).1.m_peers.find k = s.m_peers.find k) ∧
      (PeerLink.connectToHost KEYS s dest port fresh).1.m_peers.find (peerKey dest port)
        = some fresh ∧
      Effect.newSocket fresh ∈ (PeerLink.connectToHost KEYS s dest port fresh).2 ∧
      Effect.socketConnectToHost fresh dest port ∈
        (PeerLink.connectToHost KEYS s dest port fresh).2) ∧
    (∀ (s : PeerLink) (a1 a2 : QHostAddress) (p1 p2 : quint16) (c1 c2 : TcpSocketPtr)
        (msg : DataPackage),
      s.m_allowMulti = true → s.m_peers = QMap.clear → (a1, p1) ≠ (a2, p2) →
      c1 ≠ 0 → c2 ≠ 0 →
      (∀ k, k ∈ (run KEYS s [Op.connectToHost a1 p1 c1, Op.connectToHost a2 p2 c2]).1.m_peers.keys
        ↔ k = peerKey a1 p1 ∨ k = peerKey a2 p2) ∧
      (run KEYS s [Op.connectToHost a1 p1 c1, Op.connectToHost a2 p2 c2]).1.m_peers.find
        (peerKey a1 p1) = some c1 ∧
      (run KEYS s [Op.connectToHost a1 p1 c1, Op.connectToHost a2 p2 c2]).1.m_peers.find
        (peerKey a2 p2) = some c2 ∧
      ((run KEYS s [Op.connectToHost a1 p1 c1, Op.connectToHost a2 p2 c2]).1.transmit msg).2.Perm
        [Effect.write c1 msg, Effect.write c2 msg]) := by
  have hone : ∀ (s : PeerLink) (dest : QHostAddress) (port : quint16) (fresh : TcpSocketPtr),
      s.m_allowMulti = true →
      (PeerLink.connectToHost KEYS s dest port fresh).1.m_peers =
        (s.m_peers.erase (peerKey dest port)).insert (peerKey dest port) fresh := by
    intro s dest port fresh h
    rw [connectToHost_table]
    simp [policyAdmits, h]
  refine ⟨?_, ?_⟩
  · intro s dest port fresh h
    rw [hone s dest port fresh h, connectToHost_calls KEYS s dest port fresh h]
    refine ⟨?_, ?_, QMap.find_insert_self _ _ _, by simp, by simp⟩
    · intro k
      rw [QMap.mem_keys_insert, QMap.mem_keys_erase]
      by_cases hk : k = peerKey dest port <;> simp [hk]
    · intro k hk
      rw [QMap.find_insert_ne _ _ hk, QMap.find_erase_ne _ hk]
  · intro s a1 a2 p1 p2 c1 c2 msg hflag hempty hne hc1 hc2
    have hk : peerKey a2 p2 ≠ peerKey a1 p1 := peerKey_ne (Ne.symm hne)
    have hflag1 : (PeerLink.connectToHost KEYS s a1 p1 c1).1.m_allowMulti = true := by
      rw [connectToHost_allowMulti]; exact hflag
    have htable : (run KEYS s [Op.connectToHost a1 p1 c1, Op.connectToHost a2 p2 c2]).1.m_peers
        = (QMap.clear.insert (peerKey a1 p1) c1).insert (peerKey a2 p2) c2 := by
      simp only [run, step]
      rw [hone _ a2 p2 c2 hflag1, hone s a1 p1 c1 hflag, hempty]
      apply QMap.ext_entries
      simp [QMap.insert, QMap.erase, QMap.clear, eraseEntry, insertEntry, hk, Ne.symm hk]
    refine ⟨?_, ?_, ?_, ?_⟩
    · intro k
      rw [htable, QMap.mem_keys_insert, QMap.mem_keys_insert]
      simp [QMap.keys, QMap.clear]
      tauto
    · rw [htable, QMap.find_insert_ne _ _ (Ne.symm hk), QMap.find_insert_self]
    · rw [htable, QMap.find_insert_self]
    · simp only [PeerLink.transmit, htable, QMap.values, QMap.insert, QMap.clear, insertEntry,
        Ne.symm hk, if_false]
      split
      · simp [hc1, hc2]
        exact List.Perm.swap _ _ _
      · simp [hc1, hc2]

/-- C10 (witness): dialling 10.0.0.2:80 and 10.0.0.1:80 in multi mode, then
transmitting. -/
theorem multi_mode_dial_adds_peer_witness :
    ((run ["Msg"] (PeerLink.setAllowMulti (PeerLink.ctor 1) true).1
        [Op.connectToHost ⟨"10.0.0.2"⟩ 80 11, Op.connectToHost ⟨"10.0.0.1"⟩ 80 12]).1.transmit
          ⟨"Msg", [1, 2, 3]⟩).2.Perm
      [Effect.write 11 ⟨"Msg", [1, 2, 3]⟩, Effect.write 12 ⟨"Msg", [1, 2, 3]⟩] :=
  ((multi_mode_dial_adds_peer ["Msg"]).2 (PeerLink.setAllowMulti (PeerLink.ctor 1) true).1
    ⟨"10.0.0.2"⟩ ⟨"10.0.0.1"⟩ 80 80 11 12 ⟨"Msg", [1, 2, 3]⟩
    rfl rfl (by decide) (by decide) (by decide)).2.2.2

/-- C11 (counterexample): socket 11 is accepted, raises an error (the `handle` slot
evicts it and requests its release, leaving it wired) and then raises `disconnected`:
its release has been requested twice. The same happens when socket 11 is evicted by
`close(addr, port)` and then raises `disconnected`. -/
theorem release_requested_twice_after_eviction :
    (run ["Msg"] (PeerLink.ctor 1)
        [Op.newConnection ⟨11, ⟨"10.0.0.1"⟩, 4000⟩,
         Op.handle (some ⟨11, ⟨"10.0.0.1"⟩, 4000⟩) 1]).1.m_peers.entries = [] ∧
    wiredToPeerLink (connectionsAfter [] (run ["Msg"] (PeerLink.ctor 1)
        [Op.newConnection ⟨11, ⟨"10.0.0.1"⟩, 4000⟩,
         Op.handle (some ⟨11, ⟨"10.0.0.1"⟩, 4000⟩) 1]).2) 11 = true ∧
    (run ["Msg"] (PeerLink.ctor 1)
        [Op.newConnection ⟨11, ⟨"10.0.0.1"⟩, 4000⟩,
         Op.handle (some ⟨11, ⟨"10.0.0.1"⟩, 4000⟩) 1,
         Op.disconnected (some ⟨11, ⟨"10.0.0.1"⟩, 4000⟩)]).2.count (Effect.deleteLater 11) = 2 ∧
    wiredToPeerLink (connectionsAfter [] (run ["Msg"] (PeerLink.ctor 1)
        [Op.connectToHost ⟨"10.0.0.1"⟩ 80 11, Op.closeOne ⟨"10.0.0.1"⟩ 80]).2) 11 = true ∧
    (run ["Msg"] (PeerLink.ctor 1)
        [Op.connectToHost ⟨"10.0.0.1"⟩ 80 11, Op.closeOne ⟨"10.0.0.1"⟩ 80,
         Op.disconnected (some ⟨11, ⟨"10.0.0.1"⟩, 80⟩)]).2.count (Effect.deleteLater 11) = 2 := by
  decide

/-- C11 (amended): the call that evicts a channel requests its release as follows.
`close(addr, port)` requests it once for the stored channel; `close()` once per entry
holding a non-null pointer; `disconnected()` and `handle()` once for the channel that
raised the event, in every state (so again when a channel evicted earlier raises a
further event); replacement in `newConnection` once for the old channel; replacement
in `connectToHost` not at all inside the call, the release being scheduled on the old
channel's `disconnected` signal and on a 30000 ms one-shot timer. -/
theorem release_requested_by_evicting_call (KEYS : List String) (s : PeerLink) :
    (∀ (a : QHostAddress) (p : quint16) (old : TcpSocketPtr),
      s.m_peers.find (peerKey a p) = some old →
      (s.closeOne a p).2.count (Effect.deleteLater old) = 1) ∧
    (∀ (p : TcpSocketPtr), p ≠ 0 →
      s.close.2.count (Effect.deleteLater p) = s.m_peers.values.count p) ∧
    (∀ (socket : TcpSocket) (e : SocketError),
      (s.disconnected (some socket)).2.count (Effect.deleteLater socket.ptr) = 1 ∧
      (s.handle (some socket) e).2.count (Effect.deleteLater socket.ptr) = 1) ∧
    (∀ (sock : TcpSocket) (old : TcpSocketPtr),
      s.m_peers.find (peerKey sock.peerAddress sock.peerPort) = some old → old ≠ sock.ptr →
      (PeerLink.newConnection KEYS s sock).2.count (Effect.deleteLater old) = 1) ∧
    (∀ (dest : QHostAddress) (port : quint16) (fresh old : TcpSocketPtr),
      s.m_peers.find (peerKey dest port) = some old →
      (PeerLink.connectToHost KEYS s dest port fresh).2.count (Effect.deleteLater old) = 0 ∧
      Effect.wire old SocketSignal.disconnected Receiver.socketDeleteLater ∈
        (PeerLink.connectToHost KEYS s dest port fresh).2 ∧
      Effect.singleShotDeleteLater 30000 old ∈
        (PeerLink.connectToHost KEYS s dest port fresh).2) := by
  refine ⟨?_, ?_, ?_, ?_, ?_⟩
  · intro a p old h
    simp [PeerLink.closeOne, h]
  · intro p hp
    have hinj : Function.Injective Effect.deleteLater := fun a b h => by injection h
    simp only [PeerLink.close, List.count_append]
    rw [count_map_nonnull Effect.deleteLater hinj]
    have : (if s.m_server ≠ 0 then [Effect.serverClose] else []).count (Effect.deleteLater p)
        = 0 := by
      split <;> simp
    rw [this]
    simp [hp]
  · intro socket e
    constructor
    · unfold PeerLink.disconnected
      cases h : s.m_peers.find (peerKey socket.peerAddress socket.peerPort) <;> simp [h]
    · unfold PeerLink.handle
      cases h : s.m_peers.find (peerKey socket.peerAddress socket.peerPort) <;> simp [h]
  · intro sock old h hne
    have hw := count_deleteLater_wireInbound KEYS sock.ptr old
    unfold PeerLink.newConnection
    simp only [evictForAccept, h]
    split
    · simp [List.count_cons, Ne.symm hne]
    · simp [List.count_cons, List.count_append, hw]
  · intro dest port fresh old h
    have hw := count_deleteLater_wireOutbound KEYS fresh old
    unfold PeerLink.connectToHost
    simp only [evictForDial, h]
    split
    · simp [List.count_cons, List.count_append, hw]
    · simp [List.count_cons]

/-- C11 (witness): `close(addr, port)` of the registered 10.0.0.1:80. -/
theorem release_requested_by_evicting_call_witness :
    (PeerLink.closeOne (PeerLink.connectToHost ["Msg"] (PeerLink.ctor 1) ⟨"10.0.0.1"⟩ 80 11).1
        ⟨"10.0.0.1"⟩ 80).2.count (Effect.deleteLater 11) = 1 :=
  (release_requested_by_evicting_call ["Msg"]
    (PeerLink.connectToHost ["Msg"] (PeerLink.ctor 1) ⟨"10.0.0.1"⟩ 80 11).1).1
    ⟨"10.0.0.1"⟩ 80 11 (by decide)

/-- C12 (counterexample): socket 11 is accepted and then closed with
`close(addr, port)`; the peer table is empty and 11 is still wired to the `PeerLink`. -/
theorem closed_peer_stays_wired :
    (run ["Msg"] (PeerLink.ctor 1)
        [Op.newConnection ⟨11, ⟨"10.0.0.1"⟩, 4000⟩,
         Op.closeOne ⟨"10.0.0.1"⟩ 4000]).1.m_peers.values = [] ∧
    wiredToPeerLink (connectionsAfter [] (run ["Msg"] (PeerLink.ctor 1)
        [Op.newConnection ⟨11, ⟨"10.0.0.1"⟩, 4000⟩,
         Op.closeOne ⟨"10.0.0.1"⟩ 4000]).2) 11 = true := by
  decide

/-- C12 (amended): `connectToHost` and `newConnection` connect the `receive` signals
of every message type, the `disconnected` and the `error` signal of the new channel
(and `connected` for a dialled one) to the `PeerLink` in the step that registers it,
and connect none when they do not register it; their replace paths remove the evicted
channel's connections to the `PeerLink` in the same step (the new channel being another
pointer); `close()`, `close(addr, port)`, `disconnected()` and `handle()` leave every
signal connection as it was. In every state reached from the constructed object by
operations whose new and accepted sockets are pointers not already in the table, every
channel held in the peer table has its `receive`, `disconnected` and `error` signals
connected to the `PeerLink`. -/
theorem subscription_follows_registration (KEYS : List String) :
    (∀ (s : PeerLink) (w : List Connection),
      (∀ (dest : QHostAddress) (port : quint16) (fresh : TcpSocketPtr),
        (policyAdmits (s.m_peers.erase (peerKey dest port)).size s.m_allowMulti = true →
          Subscribed KEYS (connectionsAfter w
            (PeerLink.connectToHost KEYS s dest port fresh).2) fresh ∧
          (fresh, SocketSignal.connected, Receiver.peerLinkConnected) ∈
            connectionsAfter w (PeerLink.connectToHost KEYS s dest port fresh).2) ∧
        (policyAdmits (s.m_peers.erase (peerKey dest port)).size s.m_allowMulti = false →
          ∀ sig r, r ≠ Receiver.socketDeleteLater →
            Effect.wire fresh sig r ∉ (PeerLink.connectToHost KEYS s dest port fresh).2) ∧
        (∀ old, s.m_peers.find (peerKey dest port) = some old → old ≠ fresh →
          wiredToPeerLink (connectionsAfter w
            (PeerLink.connectToHost KEYS s dest port fresh).2) old = false)) ∧
      (∀ (sock : TcpSocket),
        (policyAdmits (s.m_peers.erase (peerKey sock.peerAddress sock.peerPort)).size
            s.m_allowMulti = true →
          Subscribed KEYS (connectionsAfter w
            (PeerLink.newConnection KEYS s sock).2) sock.ptr) ∧
        (policyAdmits (s.m_peers.erase (peerKey sock.peerAddress sock.peerPort)).size
            s.m_allowMulti = false →
          ∀ sig r, Effect.wire sock.ptr sig r ∉ (PeerLink.newConnection KEYS s sock).2) ∧
        (∀ old, s.m_peers.find (peerKey sock.peerAddress sock.peerPort) = some old →
          old ≠ sock.ptr →
          wiredToPeerLink (connectionsAfter w
            (PeerLink.newConnection KEYS s sock).2) old = false)) ∧
      connectionsAfter w s.close.2 = w ∧
      (∀ (a : QHostAddress) (p : quint16), connectionsAfter w (s.closeOne a p).2 = w) ∧
      (∀ (sender : Option TcpSocket) (e : SocketError),
        connectionsAfter w (s.disconnected sender).2 = w ∧
        connectionsAfter w (s.handle sender e).2 = w)) ∧
    (∀ (server : Nat) (ops : List Op) (k : String) (p : TcpSocketPtr),
      FreshSockets KEYS (PeerLink.ctor server) ops →
      (run KEYS (PeerLink.ctor server) ops).1.m_peers.find k = some p →
      Subscribed KEYS (connectionsAfter [] (run KEYS (PeerLink.ctor server) ops).2) p) := by
  refine ⟨?_, ?_⟩
  · intro s w
    refine ⟨?_, ?_, connectionsAfter_close w s, connectionsAfter_closeOne w s,
      fun sender e => ⟨connectionsAfter_disconnected w s sender,
        connectionsAfter_handle w s sender e⟩⟩
    · intro dest port fresh
      refine ⟨?_, ?_, ?_⟩
      · intro hpol
        refine ⟨subscribed_by_connectToHost KEYS s dest port fresh w hpol, ?_⟩
        apply wired_by_connectToHost KEYS s dest port fresh w _ _ hpol
        simp [wireOutbound]
      · intro hdeny sig r hr
        rw [connectToHost_effects]
        simp only [hdeny, Bool.false_eq_true, if_false, List.append_nil]
        unfold evictForDial
        cases h : s.m_peers.find (peerKey dest port) with
        | none => simp
        | some old =>
          simp only [List.mem_cons, List.mem_singleton, Effect.wire.injEq, reduceCtorEq,
            false_or, or_false, List.not_mem_nil]
          intro hh
          exact hr hh.2.2
      · intro old hold hne
        have hshape : (PeerLink.connectToHost KEYS s dest port fresh).2 =
            Effect.unwireAll old ::
              ([Effect.disconnectFromHost old,
                Effect.wire old SocketSignal.disconnected Receiver.socketDeleteLater,
                Effect.singleShotDeleteLater 30000 old] ++
               (if policyAdmits (s.m_peers.erase (peerKey dest port)).size s.m_allowMulti then
                 [Effect.newSocket fresh] ++ wireOutbound KEYS fresh ++
                   [Effect.socketConnectToHost fresh dest port]
               else [])) := by
          rw [connectToHost_effects]
          simp [evictForDial, hold]
        rw [hshape, connectionsAfter_cons]
        apply unwired_preserved
        · exact unwired_rewire_unwireAll _ _
        · intro sig r hmem
          split at hmem
          · simp [wireOutbound, hne, Ne.symm hne] at hmem
            exact hmem.2
          · simp at hmem
            exact hmem.2
    · intro sock
      refine ⟨subscribed_by_newConnection KEYS s sock w, ?_, ?_⟩
      · intro hdeny sig r
        rw [newConnection_effects]
        simp only [hdeny, Bool.false_eq_true, if_false]
        unfold evictForAccept
        cases h : s.m_peers.find (peerKey sock.peerAddress sock.peerPort) <;> simp
      · intro old hold hne
        have hshape : (PeerLink.newConnection KEYS s sock).2 =
            Effect.unwireAll old ::
              ([Effect.disconnectFromHost old, Effect.deleteLater old] ++
               (if policyAdmits (s.m_peers.erase (peerKey sock.peerAddress sock.peerPort)).size
                   s.m_allowMulti then
                 wireInbound KEYS sock.ptr ++
                   [Effect.emitConnected sock.peerAddress sock.peerPort]
               else [Effect.disconnectFromHost sock.ptr, Effect.deleteLater sock.ptr])) := by
          rw [newConnection_effects]
          simp [evictForAccept, hold]
        rw [hshape, connectionsAfter_cons]
        apply unwired_preserved
        · exact unwired_rewire_unwireAll _ _
        · intro sig r hmem
          split at hmem
          · simp [wireInbound, hne, Ne.symm hne] at hmem
          · simp at hmem
  · intro server ops k p hfresh hk
    exact (tableSubscribed_run KEYS ops (PeerLink.ctor server) []
      (tableSubscribed_ctor KEYS server) hfresh).2 k p hk

/-- C12 (witness): a second inbound channel from 10.0.0.1:4000 replaces socket 11;
socket 12, now in the table, has its three kinds of signal connected and socket 11 is
unwired in that step. -/
theorem subscription_follows_registration_witness :
    (12, SocketSignal.receive "Msg", Receiver.peerLinkReceive "Msg") ∈
      connectionsAfter [] (run ["Msg"] (PeerLink.ctor 1)
        [Op.newConnection ⟨11, ⟨"10.0.0.1"⟩, 4000⟩,
         Op.newConnection ⟨12, ⟨"10.0.0.1"⟩, 4000⟩]).2 ∧
    (12, SocketSignal.disconnected, Receiver.peerLinkDisconnected) ∈
      connectionsAfter [] (run ["Msg"] (PeerLink.ctor 1)
        [Op.newConnection ⟨11, ⟨"10.0.0.1"⟩, 4000⟩,
         Op.newConnection ⟨12, ⟨"10.0.0.1"⟩, 4000⟩]).2 ∧
    (12, SocketSignal.error, Receiver.peerLinkHandle) ∈
      connectionsAfter [] (run ["Msg"] (PeerLink.ctor 1)
        [Op.newConnection ⟨11, ⟨"10.0.0.1"⟩, 4000⟩,
         Op.newConnection ⟨12, ⟨"10.0.0.1"⟩, 4000⟩]).2 ∧
    wiredToPeerLink (connectionsAfter
        (connectionsAfter []
          (PeerLink.newConnection ["Msg"] (PeerLink.ctor 1) ⟨11, ⟨"10.0.0.1"⟩, 4000⟩).2)
        (PeerLink.newConnection ["Msg"]
          (PeerLink.newConnection ["Msg"] (PeerLink.ctor 1) ⟨11, ⟨"10.0.0.1"⟩, 4000⟩).1
          ⟨12, ⟨"10.0.0.1"⟩, 4000⟩).2) 11 = false := by
  have h := (subscription_follows_registration ["Msg"]).2 1
    [Op.newConnection ⟨11, ⟨"10.0.0.1"⟩, 4000⟩, Op.newConnection ⟨12, ⟨"10.0.0.1"⟩, 4000⟩]
    "10.0.0.1:4000" 12 (by decide) (by decide)
  refine ⟨h.1 "Msg" (by simp), h.2.1, h.2.2, ?_⟩
  exact (((subscription_follows_registration ["Msg"]).1
    (PeerLink.newConnection ["Msg"] (PeerLink.ctor 1) ⟨11, ⟨"10.0.0.1"⟩, 4000⟩).1
    (connectionsAfter []
      (PeerLink.newConnection ["Msg"] (PeerLink.ctor 1) ⟨11, ⟨"10.0.0.1"⟩, 4000⟩).2)).2.1
    ⟨12, ⟨"10.0.0.1"⟩, 4000⟩).2.2 11 (by decide) (by decide)

/-- C14: `setAllowMulti(b)` sets the flag to `b` and changes nothing else: the peer
table (hence every entry) and the server pointer are as before, and no call or signal
is issued. -/
theorem setAllowMulti_changes_only_flag (s : PeerLink) (b : Bool) :
    (s.setAllowMulti b).1.m_peers = s.m_peers ∧
    (s.setAllowMulti b).1.m_server = s.m_server ∧
    (s.setAllowMulti b).1.m_allowMulti = b ∧
    (s.setAllowMulti b).2 = [] ∧
    (∀ k, (s.setAllowMulti b).1.m_peers.find k = s.m_peers.find k) :=
  ⟨rfl, rfl, rfl, rfl, fun _ => rfl⟩

/-- C15: after every sequence of operations from any object the keys of the peer table
are pairwise distinct; and when `connectToHost` or `newConnection` finds a channel
`old` under the key and the new channel is another pointer, after the call the key no
longer maps to `old` and the table holds `old` in one entry less than before. -/
theorem peer_table_keys_unique (KEYS : List String) :
    (∀ (s : PeerLink) (ops : List Op), (run KEYS s ops).1.m_peers.keys.Nodup) ∧
    (∀ (s : PeerLink) (dest : QHostAddress) (port : quint16) (fresh old : TcpSocketPtr),
      s.m_peers.find (peerKey dest port) = some old → old ≠ fresh →
      (PeerLink.connectToHost KEYS s dest port fresh).1.m_peers.find (peerKey dest port)
        ≠ some old ∧
      (PeerLink.connectToHost KEYS s dest port fresh).1.m_peers.values.count old + 1 =
        s.m_peers.values.count old) ∧
    (∀ (s : PeerLink) (sock : TcpSocket) (old : TcpSocketPtr),
      s.m_peers.find (peerKey sock.peerAddress sock.peerPort) = some old → old ≠ sock.ptr →
      (PeerLink.newConnection KEYS s sock).1.m_peers.find
        (peerKey sock.peerAddress sock.peerPort) ≠ some old ∧
      (PeerLink.newConnection KEYS s sock).1.m_peers.values.count old + 1 =
        s.m_peers.values.count old) := by
  have hreplace : ∀ (m : QMap) (k : String) (old v : TcpSocketPtr) (b : Bool),
      m.find k = some old → old ≠ v →
      (if b = true then (m.erase k).insert k v else m.erase k).find k ≠ some old ∧
      (if b = true then (m.erase k).insert k v else m.erase k).values.count old + 1 =
        m.values.count old := by
    intro m k old v b h hne
    cases b
    · simp only [Bool.false_eq_true, if_false]
      refine ⟨by rw [QMap.find_erase_self]; simp, ?_⟩
      have h1 := (values_eraseEntry_perm k old m.entries h).count_eq old
      unfold QMap.values
      simp only [QMap.erase]
      rw [h1, List.count_cons_self]
    · simp only [if_true]
      refine ⟨?_, ?_⟩
      · rw [QMap.find_insert_self]
        intro hh
        exact hne (Option.some.inj hh).symm
      · have := QMap.count_values_replace m k old v old h
        simp only [if_true, hne, if_false] at this
        omega
  refine ⟨fun s ops => QMap.keys_nodup _, ?_, ?_⟩
  · intro s dest port fresh old h hne
    rw [connectToHost_table]
    exact hreplace _ _ _ _ _ h hne
  · intro s sock old h hne
    rw [newConnection_table]
    exact hreplace _ _ _ _ _ h hne

/-- C15 (witness): dialling 10.0.0.1:80 a second time replaces socket 11. -/
theorem peer_table_keys_unique_witness :
    (PeerLink.connectToHost ["Msg"]
        (PeerLink.connectToHost ["Msg"] (PeerLink.ctor 1) ⟨"10.0.0.1"⟩ 80 11).1
        ⟨"10.0.0.1"⟩ 80 12).1.m_peers.find (peerKey ⟨"10.0.0.1"⟩ 80) ≠ some 11 :=
  ((peer_table_keys_unique ["Msg"]).2.1
    (PeerLink.connectToHost ["Msg"] (PeerLink.ctor 1) ⟨"10.0.0.1"⟩ 80 11).1
    ⟨"10.0.0.1"⟩ 80 12 11 (by decide) (by decide)).1

/-- C16: with `allowMulti = false`, a non-empty peer table and an endpoint whose key is
not in the table, `connectToHost` leaves the object unchanged and issues nothing: no
socket is created, no transport connect is started, no signal is emitted. -/
theorem dial_silently_rejected (KEYS : List String) (s : PeerLink) (dest : QHostAddress)
    (port : quint16) (fresh : TcpSocketPtr)
    (hflag : s.m_allowMulti = false) (hnonempty : s.m_peers.empty = false)
    (habsent : s.m_peers.find (peerKey dest port) = none) :
    PeerLink.connectToHost KEYS s dest port fresh = (s, []) := by
  simp only [PeerLink.connectToHost, evictForDial, habsent, hflag, hnonempty]
  cases s
  simp_all

/-- C16 (witness): the table holds 10.0.0.1:4000 and 10.0.0.2:80 is dialled. -/
theorem dial_silently_rejected_witness :
    PeerLink.connectToHost ["Msg"]
        (PeerLink.newConnection ["Msg"] (PeerLink.ctor 1) ⟨11, ⟨"10.0.0.1"⟩, 4000⟩).1
        ⟨"10.0.0.2"⟩ 80 12 =
      ((PeerLink.newConnection ["Msg"] (PeerLink.ctor 1) ⟨11, ⟨"10.0.0.1"⟩, 4000⟩).1, []) :=
  dial_silently_rejected ["Msg"]
    (PeerLink.newConnection ["Msg"] (PeerLink.ctor 1) ⟨11, ⟨"10.0.0.1"⟩, 4000⟩).1
    ⟨"10.0.0.2"⟩ 80 12 (by decide) (by decide) (by decide)

/-- C17: with `allowMulti = false`, a peer table holding the dialled key K and an
entry under another key, `connectToHost(K)` unwires the old channel, asks it to
disconnect, schedules its release on its `disconnected` signal and on a 30000 ms
one-shot timer, erases K, and registers nothing: the table is the old one without K,
every other entry as it was. -/
theorem dial_evicts_then_denies (KEYS : List String) (s : PeerLink) (dest : QHostAddress)
    (port : quint16) (fresh old : TcpSocketPtr) (other : String)
    (hflag : s.m_allowMulti = false)
    (hold : s.m_peers.find (peerKey dest port) = some old)
    (hother : other ≠ peerKey dest port) (hheld : s.m_peers.find other ≠ none) :
    PeerLink.connectToHost KEYS s dest port fresh =
      ({ s with m_peers := s.m_peers.erase (peerKey dest port) },
        [Effect.unwireAll old, Effect.disconnectFromHost old,
         Effect.wire old SocketSignal.disconnected Receiver.socketDeleteLater,
         Effect.singleShotDeleteLater 30000 old]) ∧
    (PeerLink.connectToHost KEYS s dest port fresh).1.m_peers.find (peerKey dest port) = none ∧
    (∀ k, k ≠ peerKey dest port →
      (PeerLink.connectToHost KEYS s dest port fresh).1.m_peers.find k = s.m_peers.find k) := by
  have hne : (s.m_peers.erase (peerKey dest port)).empty = false := by
    have h1 : (s.m_peers.erase (peerKey dest port)).find other ≠ none := by
      rw [QMap.find_erase_ne _ hother]; exact hheld
    cases he : (s.m_peers.erase (peerKey dest port)).empty
    · rfl
    · exfalso
      apply h1
      unfold QMap.empty at he
      unfold QMap.find
      cases hentries : (s.m_peers.erase (peerKey dest port)).entries with
      | nil => rfl
      | cons e m => rw [hentries] at he; simp at he
  have hcall : PeerLink.connectToHost KEYS s dest port fresh =
      ({ s with m_peers := s.m_peers.erase (peerKey dest port) },
        [Effect.unwireAll old, Effect.disconnectFromHost old,
         Effect.wire old SocketSignal.disconnected Receiver.socketDeleteLater,
         Effect.singleShotDeleteLater 30000 old]) := by
    simp [PeerLink.connectToHost, evictForDial, hold, hflag, hne]
  rw [hcall]
  exact ⟨rfl, QMap.find_erase_self _ _, fun k hk => QMap.find_erase_ne _ hk⟩

/-- C17 (witness): two peers registered in multi mode, the flag cleared, the first
dialled again. -/
theorem dial_evicts_then_denies_witness :
    (PeerLink.connectToHost ["Msg"]
        (run ["Msg"] (PeerLink.ctor 1)
          [Op.setAllowMulti true, Op.connectToHost ⟨"10.0.0.1"⟩ 80 11,
           Op.connectToHost ⟨"10.0.0.2"⟩ 80 12, Op.setAllowMulti false]).1
        ⟨"10.0.0.1"⟩ 80 13).1.m_peers.find (peerKey ⟨"10.0.0.1"⟩ 80) = none :=
  (dial_evicts_then_denies ["Msg"]
    (run ["Msg"] (PeerLink.ctor 1)
      [Op.setAllowMulti true, Op.connectToHost ⟨"10.0.0.1"⟩ 80 11,
       Op.connectToHost ⟨"10.0.0.2"⟩ 80 12, Op.setAllowMulti false]).1
    ⟨"10.0.0.1"⟩ 80 13 11 "10.0.0.2:80" (by decide) (by decide) (by decide) (by decide)).2.1

/-- C18 (counterexample): socket 11 is closed with `close(addr, port)`, which leaves it
wired, and socket 12 is accepted from the same endpoint; a `disconnected()` or an
`error` then raised by 11 removes the entry of 12. -/
theorem stale_disconnect_evicts_replacement :
    (run ["Msg"] (PeerLink.ctor 1)
        [Op.newConnection ⟨11, ⟨"10.0.0.1"⟩, 4000⟩, Op.closeOne ⟨"10.0.0.1"⟩ 4000,
         Op.newConnection ⟨12, ⟨"10.0.0.1"⟩, 4000⟩]).1.m_peers.entries
      = [("10.0.0.1:4000", 12)] ∧
    wiredToPeerLink (connectionsAfter [] (run ["Msg"] (PeerLink.ctor 1)
        [Op.newConnection ⟨11, ⟨"10.0.0.1"⟩, 4000⟩, Op.closeOne ⟨"10.0.0.1"⟩ 4000,
         Op.newConnection ⟨12, ⟨"10.0.0.1"⟩, 4000⟩]).2) 11 = true ∧
    (PeerLink.disconnected (run ["Msg"] (PeerLink.ctor 1)
        [Op.newConnection ⟨11, ⟨"10.0.0.1"⟩, 4000⟩, Op.closeOne ⟨"10.0.0.1"⟩ 4000,
         Op.newConnection ⟨12, ⟨"10.0.0.1"⟩, 4000⟩]).1
      (some ⟨11, ⟨"10.0.0.1"⟩, 4000⟩)).1.m_peers.entries = [] ∧
    (PeerLink.handle (run ["Msg"] (PeerLink.ctor 1)
        [Op.newConnection ⟨11, ⟨"10.0.0.1"⟩, 4000⟩, Op.closeOne ⟨"10.0.0.1"⟩ 4000,
         Op.newConnection ⟨12, ⟨"10.0.0.1"⟩, 4000⟩]).1
      (some ⟨11, ⟨"10.0.0.1"⟩, 4000⟩) 1).1.m_peers.entries = [] := by
  decide

/-- C18 (amended): the `disconnected()` and `handle()` slots look up the key of the
channel that raised the event only: they erase the entry under that key, so the table
is unchanged exactly when it holds no entry under that key, and an entry under that
key is removed whatever handle it stores; the entry under every other key is as it
was. -/
theorem slots_evict_by_key (s : PeerLink) (socket : TcpSocket) (e : SocketError) :
    (s.disconnected (some socket)).1 =
      { s with m_peers := s.m_peers.erase (peerKey socket.peerAddress socket.peerPort) } ∧
    (s.handle (some socket) e).1 =
      { s with m_peers := s.m_peers.erase (peerKey socket.peerAddress socket.peerPort) } ∧
    (s.m_peers.find (peerKey socket.peerAddress socket.peerPort) = none →
      (s.disconnected (some socket)).1 = s ∧ (s.handle (some socket) e).1 = s) ∧
    (s.m_peers.find (peerKey socket.peerAddress socket.peerPort) ≠ none →
      (s.disconnected (some socket)).1.m_peers.find
          (peerKey socket.peerAddress socket.peerPort) = none ∧
        (s.handle (some socket) e).1.m_peers.find
          (peerKey socket.peerAddress socket.peerPort) = none) ∧
    (∀ k, k ≠ peerKey socket.peerAddress socket.peerPort →
      (s.disconnected (some socket)).1.m_peers.find k = s.m_peers.find k ∧
        (s.handle (some socket) e).1.m_peers.find k = s.m_peers.find k) := by
  have hd : (s.disconnected (some socket)).1 =
      { s with m_peers := s.m_peers.erase (peerKey socket.peerAddress socket.peerPort) } := by
    unfold PeerLink.disconnected
    cases h : s.m_peers.find (peerKey socket.peerAddress socket.peerPort) with
    | none => simp [h, QMap.erase_of_find_none _ _ h]
    | some v => simp [h]
  have hh : (s.handle (some socket) e).1 =
      { s with m_peers := s.m_peers.erase (peerKey socket.peerAddress socket.peerPort) } := by
    unfold PeerLink.handle
    cases h : s.m_peers.find (peerKey socket.peerAddress socket.peerPort) with
    | none => simp [h, QMap.erase_of_find_none _ _ h]
    | some v => simp [h]
  refine ⟨hd, hh, ?_, ?_, ?_⟩
  · intro h
    rw [hd, hh, QMap.erase_of_find_none _ _ h]
    exact ⟨rfl, rfl⟩
  · intro _
    rw [hd, hh]
    exact ⟨QMap.find_erase_self _ _, QMap.find_erase_self _ _⟩
  · intro k hk
    rw [hd, hh]
    exact ⟨QMap.find_erase_ne _ hk, QMap.find_erase_ne _ hk⟩

/-- C19 (counterexample): the `connected()` slot run for the registered socket 11
emits `connected` and requests no release. -/
theorem connected_slot_requests_no_release :
    PeerLink.connected
        (PeerLink.connectToHost ["Msg"] (PeerLink.ctor 1) ⟨"10.0.0.1"⟩ 80 11).1
        (some ⟨11, ⟨"10.0.0.1"⟩, 80⟩) =
      ((PeerLink.connectToHost ["Msg"] (PeerLink.ctor 1) ⟨"10.0.0.1"⟩ 80 11).1,
        [Effect.emitConnected ⟨"10.0.0.1"⟩ 80]) ∧
    (PeerLink.connected
        (PeerLink.connectToHost ["Msg"] (PeerLink.ctor 1) ⟨"10.0.0.1"⟩ 80 11).1
        (some ⟨11, ⟨"10.0.0.1"⟩, 80⟩)).2.count (Effect.deleteLater 11) = 0 := by
  decide

/-- C19 (amended): for every state, whether or not the peer table holds the sender's
key, `disconnected()` requests release of the socket that raised the event once, as
its last call, and `handle(e)` requests it once, before emitting `error(e)`;
`connected()` requests no release, leaves the object unchanged and emits `connected`
exactly when the table holds the sender's key. -/
theorem slots_release_except_connected (s : PeerLink) (socket : TcpSocket) (e : SocketError) :
    (s.disconnected (some socket)).2.count (Effect.deleteLater socket.ptr) = 1 ∧
    (s.disconnected (some socket)).2.getLast? = some (Effect.deleteLater socket.ptr) ∧
    (s.handle (some socket) e).2 = [Effect.deleteLater socket.ptr, Effect.emitError e] ∧
    (∀ p, Effect.deleteLater p ∉ (s.connected (some socket)).2) ∧
    (s.connected (some socket)).1 = s ∧
    (s.connected (some socket)).2 =
      (if s.m_peers.find (peerKey socket.peerAddress socket.peerPort) ≠ none then
        [Effect.emitConnected socket.peerAddress socket.peerPort]
      else []) := by
  refine ⟨?_, ?_, ?_, ?_, ?_, ?_⟩
  · unfold PeerLink.disconnected
    cases h : s.m_peers.find (peerKey socket.peerAddress socket.peerPort) <;> simp [h]
  · unfold PeerLink.disconnected
    cases h : s.m_peers.find (peerKey socket.peerAddress socket.peerPort) <;> simp [h]
  · unfold PeerLink.handle
    cases h : s.m_peers.find (peerKey socket.peerAddress socket.peerPort) <;> simp [h]
  · intro p
    unfold PeerLink.connected
    cases h : s.m_peers.find (peerKey socket.peerAddress socket.peerPort) <;> simp [h]
  · unfold PeerLink.connected
    cases h : s.m_peers.find (peerKey socket.peerAddress socket.peerPort) <;> simp [h]
  · unfold PeerLink.connected
    cases h : s.m_peers.find (peerKey socket.peerAddress socket.peerPort) <;> simp [h]

/-- C20: the key built by `peerKey` is the same for two endpoints exactly when their
host texts and their ports are equal, whatever the host text (colons included); so an
entry stored under one endpoint is never found under a different one. -/
theorem peerKey_is_faithful (a b : QHostAddress) (p q : quint16) :
    (peerKey a p = peerKey b q ↔ a = b ∧ p = q) ∧
    (∀ (m : QMap) (v : TcpSocketPtr), (a, p) ≠ (b, q) →
      (m.insert (peerKey a p) v).find (peerKey b q) = m.find (peerKey b q)) := by
  refine ⟨⟨peerKey_injective, fun h => by rw [h.1, h.2]⟩, ?_⟩
  intro m v hne
  exact QMap.find_insert_ne m v (peerKey_ne (Ne.symm hne))

/-- C20 (witness): an IPv6 host text and a shorter one followed by more digits give
different keys. -/
theorem peerKey_is_faithful_witness :
    peerKey ⟨"fe80::1"⟩ 80 ≠ peerKey ⟨"fe80::"⟩ 180 :=
  fun h => absurd ((peerKey_is_faithful ⟨"fe80::1"⟩ ⟨"fe80::"⟩ 80 180).1.mp h) (by decide)

end GtQt
